import Mathlib

/-!
Goal oriented action planning (basicGOAP.cpp) and minimax (minimax.cpp).

A shallow embedding of the planner, of the executor `Tick`, of the elevator demo
and of `minimax`, followed by the properties proved about them.

Modelling conventions.
* `std::map<string, V>` is the list of its entries in ascending key order
  (`StdMap`); iteration visits the entries in that order.
* `int` is `Int`, and the result of an `int` addition, subtraction or negation that can
  leave the range of a 32-bit `int` is reduced into that range by `int32`, the
  wrap-around of two's complement. The `++` and `--` of `actionBouge::action_tick` are
  guarded by a comparison with the goal floor and cannot leave the range.
* The virtual functions of an action are functions of their arguments that may
  throw (`none`), as `map::at` does on an absent key.
* A call that may not return normally yields an `Outcome`.
* The case values and `winningGrid`, which minimax.cpp uses without defining them, are
  the fields of a `MinimaxEnv`.
-/

namespace GOAP

/-! ## std::map -/

/-- Key comparison of `std::map<string, _>`: lexicographic order on the characters. -/
def keyLt (a b : String) : Bool := decide (a.data < b.data)

/-- Lookup of a key among the entries of a map (`map::find`, `map::at`). -/
def mapFind {V : Type} (k : String) : List (String × V) → Option V
  | [] => none
  | (k', v) :: rest => if k = k' then some v else mapFind k rest

/-- The assignment `m[k] = v` on the ascending entry list of a map. -/
def mapSet {V : Type} (k : String) (v : V) : List (String × V) → List (String × V)
  | [] => [(k, v)]
  | (k', v') :: rest =>
    if keyLt k k' then (k, v) :: (k', v') :: rest
    else if k = k' then (k, v) :: rest
    else (k', v') :: mapSet k v rest

/-- A `std::map<string, V>`: its entries, in strictly ascending key order. -/
structure StdMap (V : Type) where
  entries : List (String × V)
  ascending : (entries.map Prod.fst).Pairwise (· < ·)

theorem keyLt_iff (a b : String) : keyLt a b = true ↔ a < b := by
  simp [keyLt, String.lt_iff_toList_lt]

theorem mapSet_keys_mem {V : Type} (k : String) (v : V) (l : List (String × V)) (x : String)
    (hx : x ∈ (mapSet k v l).map Prod.fst) : x = k ∨ x ∈ l.map Prod.fst := by
  induction l with
  | nil => simp [mapSet] at hx; exact Or.inl hx
  | cons p rest ih =>
    obtain ⟨k', v'⟩ := p
    unfold mapSet at hx
    split at hx
    · simp at hx
      rcases hx with h | h | h
      · exact Or.inl h
      · right; simp [h]
      · right; simp only [List.map_cons, List.mem_cons, List.mem_map]; right
        obtain ⟨a, ha⟩ := h; exact ⟨(x, a), ha, rfl⟩
    · split at hx
      · simp at hx
        rcases hx with h | h
        · exact Or.inl h
        · right; simp only [List.map_cons, List.mem_cons, List.mem_map]; right
          obtain ⟨a, ha⟩ := h; exact ⟨(x, a), ha, rfl⟩
      · simp only [List.map_cons, List.mem_cons] at hx
        rcases hx with h | h
        · right; simp [h]
        · rcases ih h with h | h
          · exact Or.inl h
          · right; simp only [List.map_cons, List.mem_cons]; exact Or.inr h

theorem mapSet_ascending {V : Type} (k : String) (v : V) (l : List (String × V))
    (h : (l.map Prod.fst).Pairwise (· < ·)) : ((mapSet k v l).map Prod.fst).Pairwise (· < ·) := by
  induction l with
  | nil => simp [mapSet]
  | cons p rest ih =>
    obtain ⟨k', v'⟩ := p
    simp only [List.map_cons, List.pairwise_cons] at h
    unfold mapSet
    split
    · rename_i hlt
      rw [keyLt_iff] at hlt
      simp only [List.map_cons, List.pairwise_cons, List.mem_cons]
      refine ⟨?_, h.1, h.2⟩
      rintro a (rfl | ha)
      · exact hlt
      · exact lt_trans hlt (h.1 a ha)
    · rename_i hnlt
      rw [keyLt_iff] at hnlt
      split
      · rename_i heq
        subst heq
        simp only [List.map_cons, List.pairwise_cons]
        exact ⟨h.1, h.2⟩
      · rename_i hne
        simp only [List.map_cons, List.pairwise_cons]
        refine ⟨?_, ih h.2⟩
        intro a ha
        rcases mapSet_keys_mem k v rest a ha with rfl | ha
        · exact lt_of_le_of_ne (not_lt.mp hnlt) (fun e => hne e.symm)
        · exact h.1 a ha

namespace StdMap

/-- The empty map. -/
def empty {V : Type} : StdMap V := ⟨[], List.Pairwise.nil⟩

/-- The lookup `m.find(k)` / `m.at(k)`: `none` when the key is absent. -/
def find? {V : Type} (m : StdMap V) (k : String) : Option V := mapFind k m.entries

/-- The assignment `m[k] = v`. -/
def set {V : Type} (m : StdMap V) (k : String) (v : V) : StdMap V :=
  ⟨mapSet k v m.entries, mapSet_ascending k v m.entries m.ascending⟩

end StdMap

instance {V : Type} [DecidableEq V] : DecidableEq (StdMap V) := fun a b =>
  decidable_of_iff (a.entries = b.entries) (by cases a; cases b; simp)

/-! ## Etat and its comparison -/

/-- The class `Etat`: the variables known about the world. -/
structure Etat where
  infos : StdMap Int
deriving DecidableEq

/-- The loop and the final test of `operator!=`, from the position `itr` on, with the
current value of `numCommun`. The result is the value returned by `operator!=`. -/
def neLoop (r : Etat) : List (String × Int) → Nat → Bool
  | [], numCommun => if numCommun = 0 then true else false
  | (first, second) :: itr, numCommun =>
    match r.infos.find? first with
    | none => neLoop r itr numCommun
    | some rv => if second ≠ rv then true else neLoop r itr (numCommun + 1)

/-- The function `operator!=( const Etat& l, const Etat& r )`. -/
def operator_ne (l r : Etat) : Bool := neLoop r l.infos.entries 0

/-- The function `operator==( const Etat& l, const Etat& r )`. -/
def operator_eq (l r : Etat) : Bool := !(operator_ne l r)

/-! ## Arithmetic of `int` -/

/-- The value of type `int` (32 bits, two's complement) that the exact result `x` of an
addition, a subtraction or a negation of `int` values is reduced to. -/
def int32 (x : Int) : Int := (x + 2147483648) % 4294967296 - 2147483648

/-! ## Actions -/

/-- The base class `actionInterface`: the four virtual functions of an action. Each is a
function of its two arguments; `none` is a thrown exception. `action_tick` changes the
state it is given in place: the model returns its return value and the changed state. -/
structure actionInterface where
  preConditions : Etat → Etat → Option Etat
  resultats : Etat → Etat → Option Etat
  coutAction : Etat → Etat → Option Int
  action_tick : Etat → Etat → Option (Bool × Etat)

/-- The loop of `etatResultatTotal`: `total.infos[itr->first] = itr->second` for every
entry of `res` from the position `itr` on. -/
def etatResultatTotalLoop : List (String × Int) → Etat → Etat
  | [], total => total
  | (first, second) :: itr, total => etatResultatTotalLoop itr ⟨total.infos.set first second⟩

/-- The member function `actionInterface::etatResultatTotal`. -/
def etatResultatTotal (a : actionInterface) (etatInitial etatVoulu : Etat) : Option Etat :=
  let total := etatInitial
  match a.resultats etatInitial etatVoulu with
  | none => none
  | some res => some (etatResultatTotalLoop res.infos.entries total)

/-- How a call ends: it returns a value, an exception leaves it, its behaviour is
undefined (a call through a null pointer, a dereference of `end()`), or the fuel given
to the model of its loop ran out before it ended. -/
inductive Outcome (α : Type) where
  | returned (a : α)
  | thrown
  | undefined
  | outOfFuel
deriving DecidableEq

/-! ## The executor -/

/-- What `Tick` reads and writes besides the goal: its static variable `actionEnCours`
(the empty string when no action is in progress), the caller's `sequenceActions` and
the caller's `etatActuel`. -/
structure Executor where
  actionEnCours : String
  sequenceActions : List String
  etatActuel : Etat
deriving DecidableEq

/-- The last statement of `Tick` before `return true`: one `action_tick` of
`actions[actionEnCours]`. For a name that is not registered `actions[...]` is a null
pointer and the call through it is undefined. -/
def tickAction (actions : StdMap actionInterface) (x : Executor) (etatVoulu : Etat) :
    Outcome (Bool × Executor) :=
  match actions.find? x.actionEnCours with
  | none => .undefined
  | some a =>
    match a.action_tick x.etatActuel etatVoulu with
    | none => .thrown
    | some (fini, etatActuel) =>
      .returned (true, { actionEnCours := if fini then "" else x.actionEnCours,
                         sequenceActions := x.sequenceActions,
                         etatActuel := etatActuel })

/-- The function `Tick`, over the global registry `actions`. -/
def Tick (actions : StdMap actionInterface) (x : Executor) (etatVoulu : Etat) :
    Outcome (Bool × Executor) :=
  if x.actionEnCours = "" then
    match x.sequenceActions with
    | [] => .returned (false, x)
    | front :: rest =>
      tickAction actions { x with actionEnCours := front, sequenceActions := rest } etatVoulu
  else
    tickAction actions x etatVoulu

/-- The caller's loop `while( Tick( ... ) )` unrolled for at most `n` calls: the values
returned so far and the executor after the last call; it stops after the first `false`. -/
def ticks (actions : StdMap actionInterface) (etatVoulu : Etat) :
    Nat → Executor → Outcome (List Bool × Executor)
  | 0, x => .returned ([], x)
  | n + 1, x =>
    match Tick actions x etatVoulu with
    | .returned (true, x1) =>
      match ticks actions etatVoulu n x1 with
      | .returned (bs, x2) => .returned (true :: bs, x2)
      | .thrown => .thrown
      | .undefined => .undefined
      | .outOfFuel => .outOfFuel
    | .returned (false, x1) => .returned ([false], x1)
    | .thrown => .thrown
    | .undefined => .undefined
    | .outOfFuel => .outOfFuel

/-! ## The planner -/

/-- The struct `Sequence`: a list of action names, the state after them, a total score. -/
structure Sequence where
  seq : List String
  etaTmp : Etat
  score : Int
deriving DecidableEq

/-- The default constructor `Sequence()`, also the value after `reset()`. -/
def Sequence.reset : Sequence := ⟨[], ⟨StdMap.empty⟩, 0⟩

/-- The function `cmpSequence`. -/
def cmpSequence (s1 s2 : Sequence) : Bool := decide (s1.score < s2.score)

/-- The scan of `std::min_element` after its first element: `smallest` is the position
of the smallest element seen so far, `i` the position of the next element. -/
def min_elementScan {α : Type} (cmp : α → α → Bool) : List α → Nat → α → Nat → Nat
  | [], _, _, smallest => smallest
  | x :: rest, i, s, smallest =>
    if cmp x s then min_elementScan cmp rest (i + 1) x i
    else min_elementScan cmp rest (i + 1) s smallest

/-- The call `std::min_element( begin, end, cmp )`: the position of the first smallest
element, `none` for `end()` on an empty range. -/
def min_element {α : Type} (cmp : α → α → Bool) : List α → Option Nat
  | [] => none
  | x :: rest => some (min_elementScan cmp rest 1 x 0)

/-- The `for` loop of `calculePlanPourAtteindreEtat` over the registry entries from the
position `a` on: every action whose preconditions match the state of `seq` pushes a new
sequence at the back of `sequencesPossibles`. `none` when an action throws. -/
def expand (etatVoulu : Etat) (seq : Sequence) :
    List (String × actionInterface) → List Sequence → Option (List Sequence)
  | [], sequencesPossibles => some sequencesPossibles
  | (first, second) :: a, sequencesPossibles =>
    match second.preConditions seq.etaTmp etatVoulu with
    | none => none
    | some pc =>
      if operator_ne pc seq.etaTmp then expand etatVoulu seq a sequencesPossibles
      else
        match second.coutAction seq.etaTmp etatVoulu with
        | none => none
        | some scoreAction =>
          match etatResultatTotal second seq.etaTmp etatVoulu with
          | none => none
          | some etat =>
            expand etatVoulu seq a
              (sequencesPossibles ++
                [⟨seq.seq ++ [first], etat, int32 (seq.score + scoreAction)⟩])

/-- The `while( 1 )` loop of `calculePlanPourAtteindreEtat`, run for at most `fuel`
iterations. The value returned is the `bool` and the caller's `seqResultat`. -/
def planLoop (actions : StdMap actionInterface) (etatVoulu : Etat) (seqResultat : Sequence) :
    Nat → List Sequence → Outcome (Bool × Sequence)
  | 0, _ => .outOfFuel
  | fuel + 1, sequencesPossibles =>
    match min_element cmpSequence sequencesPossibles with
    | none => .undefined
    | some seqMinItr =>
      match sequencesPossibles[seqMinItr]? with
      | none => .undefined
      | some seq =>
        if operator_eq seq.etaTmp etatVoulu then .returned (true, seq)
        else
          match expand etatVoulu seq actions.entries (sequencesPossibles.eraseIdx seqMinItr) with
          | none => .thrown
          | some sp =>
            if sp.length < 1 then .returned (false, seqResultat)
            else planLoop actions etatVoulu seqResultat fuel sp

/-- The function `calculePlanPourAtteindreEtat`, over the global registry `actions`, its
loop run for at most `fuel` iterations. The value returned is the `bool` and the
caller's `seqResultat` after the call. -/
def calculePlanPourAtteindreEtat (actions : StdMap actionInterface) (fuel : Nat)
    (etatDepart etatVoulu : Etat) (seqResultat : Sequence) : Outcome (Bool × Sequence) :=
  if operator_eq etatDepart etatVoulu then .returned (true, seqResultat)
  else planLoop actions etatVoulu seqResultat fuel [⟨[], etatDepart, 0⟩]

/-! ## The elevator demo -/

/-- The constant `N_ETAGE`. -/
def N_ETAGE : String := "Numero Etage"

/-- The constant `PORTE_OUV`. -/
def PORTE_OUV : String := "Portes Ouvertes"

/-- A read of `etat.infos[k]` through the non-const `operator[]`: the value, and the map
afterwards, in which an absent key has been inserted with the value 0. -/
def Etat.index (etat : Etat) (k : String) : Int × Etat :=
  match etat.infos.find? k with
  | some v => (v, etat)
  | none => (0, ⟨etat.infos.set k 0⟩)

/-- The class `actionOuvrePorte`. -/
def actionOuvrePorte : actionInterface where
  preConditions := fun _ _ => some ⟨StdMap.empty.set PORTE_OUV 0⟩
  resultats := fun _ _ => some ⟨StdMap.empty.set PORTE_OUV 1⟩
  coutAction := fun _ _ => some 1
  action_tick := fun etatCourant _ => some (true, ⟨etatCourant.infos.set PORTE_OUV 1⟩)

/-- The class `actionFermePorte`. -/
def actionFermePorte : actionInterface where
  preConditions := fun _ _ => some ⟨StdMap.empty.set PORTE_OUV 1⟩
  resultats := fun _ _ => some ⟨StdMap.empty.set PORTE_OUV 0⟩
  coutAction := fun _ _ => some 1
  action_tick := fun etatCourant _ => some (true, ⟨etatCourant.infos.set PORTE_OUV 0⟩)

/-- The class `actionBouge`. -/
def actionBouge : actionInterface where
  preConditions := fun etatInitial etatVoulu =>
    let pc : Etat := ⟨StdMap.empty.set PORTE_OUV 0⟩
    match etatInitial.infos.find? N_ETAGE, etatVoulu.infos.find? N_ETAGE with
    | some i, some v => if i = v then some ⟨pc.infos.set N_ETAGE (int32 (i - 1))⟩ else some pc
    | _, _ => none
  resultats := fun _ etatVoulu =>
    match etatVoulu.infos.find? N_ETAGE with
    | some v => some ⟨StdMap.empty.set N_ETAGE v⟩
    | none => none
  coutAction := fun etatInitial etatVoulu =>
    match etatInitial.infos.find? N_ETAGE, etatVoulu.infos.find? N_ETAGE with
    | some i, some v =>
      let score := int32 (i - v)
      some (if score < 0 then int32 (-score) else score)
    | _, _ => none
  action_tick := fun etatCourant etatVoulu =>
    match etatVoulu.infos.find? N_ETAGE with
    | none => none
    | some v =>
      let (c, etatCourant) := etatCourant.index N_ETAGE
      let etatCourant : Etat :=
        if c < v then ⟨etatCourant.infos.set N_ETAGE (c + 1)⟩
        else if c > v then ⟨etatCourant.infos.set N_ETAGE (c - 1)⟩
        else etatCourant
      let (c, etatCourant) := etatCourant.index N_ETAGE
      if c ≠ v then some (false, etatCourant) else some (true, etatCourant)

/-- The registry `actions` after `initAction()`. -/
def initAction : StdMap actionInterface :=
  ((StdMap.empty.set "ouvre" actionOuvrePorte).set "ferme" actionFermePorte).set "bouge"
    actionBouge

/-- A state of the demo: the floor and whether the doors are open. -/
def etatAscenseur (etage porte : Int) : Etat :=
  ⟨(StdMap.empty.set N_ETAGE etage).set PORTE_OUV porte⟩

/-! ## Replaying a plan -/

/-- The replay of a list of action names from the state `etat` with the cost `score` so
far: every name must be registered and the `preConditions` of its action equivalent to
the state reached, tested as the planner tests it; the state advances by
`etatResultatTotal` and the cost by `coutAction`, added exactly: this is the sum of the
costs as a number, not the `int` sum of the planner. `none` when a step is not
applicable or throws. -/
def replay (actions : StdMap actionInterface) (etatVoulu : Etat) :
    List String → Etat → Int → Option (Etat × Int)
  | [], etat, score => some (etat, score)
  | nom :: suite, etat, score =>
    match actions.find? nom with
    | none => none
    | some a =>
      match a.preConditions etat etatVoulu with
      | none => none
      | some pc =>
        if operator_ne pc etat then none
        else
          match a.coutAction etat etatVoulu, etatResultatTotal a etat etatVoulu with
          | some scoreAction, some etat2 => replay actions etatVoulu suite etat2 (score + scoreAction)
          | _, _ => none

/-- The floor after `i` steps of one floor from `c` towards `g`. -/
def versEtage (c g : Int) (i : Nat) : Int := if c < g then c + i else c - i

/-- The name of the action whose `action_tick` a call of `Tick` runs: the action in
progress, else the front of the pending sequence; `none` when there is neither. -/
def actionATicker (x : Executor) : Option String :=
  if x.actionEnCours = "" then x.sequenceActions.head? else some x.actionEnCours

/-! ## The search loop, one iteration at a time -/

/-- One iteration of the `while( 1 )` loop of `calculePlanPourAtteindreEtat` on
`sequencesPossibles`: `inl` when the call ends in this iteration, `inr` with the
collection at the start of the next iteration otherwise. -/
def planIteration (actions : StdMap actionInterface) (etatVoulu : Etat) (seqResultat : Sequence)
    (sequencesPossibles : List Sequence) : Outcome (Bool × Sequence) ⊕ List Sequence :=
  match min_element cmpSequence sequencesPossibles with
  | none => .inl .undefined
  | some seqMinItr =>
    match sequencesPossibles[seqMinItr]? with
    | none => .inl .undefined
    | some seq =>
      if operator_eq seq.etaTmp etatVoulu then .inl (.returned (true, seq))
      else
        match expand etatVoulu seq actions.entries (sequencesPossibles.eraseIdx seqMinItr) with
        | none => .inl .thrown
        | some sp =>
          if sp.length < 1 then .inl (.returned (false, seqResultat))
          else .inr sp

/-- The collection `sequencesPossibles` at the start of the iteration number `n` of the
loop (counted from 0) when the loop starts on the given collection; `none` when the call
has ended before that iteration. -/
def sequencesPossiblesAt (actions : StdMap actionInterface) (etatVoulu : Etat)
    (seqResultat : Sequence) : Nat → List Sequence → Option (List Sequence)
  | 0, sequencesPossibles => some sequencesPossibles
  | n + 1, sequencesPossibles =>
    match planIteration actions etatVoulu seqResultat sequencesPossibles with
    | .inl _ => none
    | .inr sp => sequencesPossiblesAt actions etatVoulu seqResultat n sp

/-! ## minimax.cpp -/

/-- What `minimax` uses and minimax.cpp does not define: the three values of a case and
the function `winningGrid`, which tells whether the tested player has a complete row,
column or diagonal. -/
structure MinimaxEnv where
  EMPTY : Int
  COMPUTER : Int
  HUMAN : Int
  winningGrid : List Int → Int → Bool

/-- The `for` loop of `minimax` from the index `i` on, run for at most `fuel` tests of
its condition. `rec` is the recursive call `minimax( grid, emptyCases, player, false,
bestMoveOrdi )`; the result is the value returned by `minimax` and `bestMoveOrdi` after
the call. An index outside the grid makes `grid[ indexMove ]` undefined. -/
def minimaxLoop (env : MinimaxEnv)
    (rec : List Int → List Int → Int → Int → Outcome (Int × Int))
    (player : Int) (firstIteration : Bool) :
    Nat → Nat → List Int → List Int → Int → Int → Outcome (Int × Int)
  | 0, _, _, _, _, _ => .outOfFuel
  | fuel + 1, i, grid, emptyCases, best, bestMoveOrdi =>
    match emptyCases[i]? with
    | none => .returned (best, bestMoveOrdi)
    | some indexMove =>
      if 0 ≤ indexMove ∧ indexMove.toNat < grid.length then
        let grid := grid.set indexMove.toNat player
        let emptyCases := emptyCases.eraseIdx i
        match rec grid emptyCases (if player = env.COMPUTER then env.HUMAN else env.COMPUTER)
            bestMoveOrdi with
        | .returned (resMinMax, bestMoveOrdi) =>
          let (best, bestMoveOrdi) :=
            if player = env.COMPUTER ∧ resMinMax > best then
              (resMinMax, if firstIteration then indexMove else bestMoveOrdi)
            else (best, bestMoveOrdi)
          let best := if player = env.HUMAN ∧ resMinMax < best then resMinMax else best
          let emptyCases := emptyCases.insertIdx i indexMove
          let grid := grid.set indexMove.toNat env.EMPTY
          minimaxLoop env rec player firstIteration fuel (i + 1) grid emptyCases best
            bestMoveOrdi
        | .thrown => .thrown
        | .undefined => .undefined
        | .outOfFuel => .outOfFuel
      else .undefined

/-- The function `minimax`: the value returned and `bestMoveOrdi` after the call. `fuel`
bounds the depth of the recursion and the number of tests of the loop condition at
each level. -/
def minimax (env : MinimaxEnv) :
    Nat → List Int → List Int → Int → Bool → Int → Outcome (Int × Int)
  | 0, _, _, _, _, _ => .outOfFuel
  | fuel + 1, grid, emptyCases, player, firstIteration, bestMoveOrdi =>
    if env.winningGrid grid env.COMPUTER then .returned (1, bestMoveOrdi)
    else if env.winningGrid grid env.HUMAN then .returned (-1, bestMoveOrdi)
    else if emptyCases.length < 1 then .returned (0, bestMoveOrdi)
    else
      let best : Int := if player = env.COMPUTER then -10 else 10
      minimaxLoop env (fun g e p b => minimax env fuel g e p false b) player firstIteration
        fuel 0 grid emptyCases best bestMoveOrdi

/-- The lines of a grid of 9 cases: rows, columns and diagonals. -/
def lignesMorpion : List (Nat × Nat × Nat) :=
  [(0, 1, 2), (3, 4, 5), (6, 7, 8), (0, 3, 6), (1, 4, 7), (2, 5, 8), (0, 4, 8), (2, 4, 6)]

/-- A `winningGrid` written from the comment of minimax.cpp, for the evaluation of
`minimax` on concrete grids: the player holds the three cases of some line. -/
def winningGridMorpion (grid : List Int) (player : Int) : Bool :=
  lignesMorpion.any fun l =>
    grid[l.1]? == some player && grid[l.2.1]? == some player && grid[l.2.2]? == some player

/-- Tic Tac Toe with EMPTY = 0, COMPUTER = 1, HUMAN = 2. -/
def morpion : MinimaxEnv := ⟨0, 1, 2, winningGridMorpion⟩

/-! # Properties -/

/-! ## Lemmas on maps -/

theorem mapFind_isSome_mem_keys {V : Type} (k : String) (l : List (String × V)) (v : V)
    (h : mapFind k l = some v) : (k, v) ∈ l := by
  induction l with
  | nil => simp [mapFind] at h
  | cons p rest ih =>
    obtain ⟨k', v'⟩ := p
    unfold mapFind at h
    split at h
    · rename_i hk
      subst hk
      simp only [Option.some.injEq] at h
      subst h
      exact List.mem_cons_self _ _
    · exact List.mem_cons_of_mem _ (ih h)

theorem mapFind_of_mem {V : Type} (k : String) (v : V) (l : List (String × V))
    (hl : (l.map Prod.fst).Pairwise (· < ·)) (h : (k, v) ∈ l) : mapFind k l = some v := by
  induction l with
  | nil => simp at h
  | cons p rest ih =>
    obtain ⟨k', v'⟩ := p
    simp only [List.map_cons, List.pairwise_cons] at hl
    unfold mapFind
    rcases List.mem_cons.mp h with h | h
    · simp only [Prod.mk.injEq] at h
      simp [h.1, h.2]
    · have hlt : k' < k := hl.1 k (List.mem_map.mpr ⟨(k, v), h, rfl⟩)
      rw [if_neg (fun e => absurd (e ▸ hlt) (lt_irrefl _))]
      exact ih hl.2 h

theorem StdMap.find?_eq_some_iff {V : Type} (m : StdMap V) (k : String) (v : V) :
    m.find? k = some v ↔ (k, v) ∈ m.entries :=
  ⟨mapFind_isSome_mem_keys k m.entries v, mapFind_of_mem k v m.entries m.ascending⟩

/-! ## The comparison of states -/

theorem neLoop_eq_false_iff (r : Etat) (itr : List (String × Int)) (numCommun : Nat) :
    neLoop r itr numCommun = false ↔
      (∀ k v w, (k, v) ∈ itr → r.infos.find? k = some w → v = w) ∧
      (numCommun ≠ 0 ∨ ∃ k v w, (k, v) ∈ itr ∧ r.infos.find? k = some w) := by
  induction itr generalizing numCommun with
  | nil => simp [neLoop]
  | cons p rest ih =>
    obtain ⟨k', v'⟩ := p
    unfold neLoop
    split
    · rename_i hnone
      rw [ih]
      constructor
      · rintro ⟨h1, h2⟩
        refine ⟨?_, ?_⟩
        · intro k v w hm hf
          rcases List.mem_cons.mp hm with hm | hm
          · simp only [Prod.mk.injEq] at hm
            rw [hm.1, hnone] at hf
            exact absurd hf (by simp)
          · exact h1 k v w hm hf
        · rcases h2 with h2 | ⟨k, v, w, hm, hf⟩
          · exact Or.inl h2
          · exact Or.inr ⟨k, v, w, List.mem_cons_of_mem _ hm, hf⟩
      · rintro ⟨h1, h2⟩
        refine ⟨fun k v w hm hf => h1 k v w (List.mem_cons_of_mem _ hm) hf, ?_⟩
        rcases h2 with h2 | ⟨k, v, w, hm, hf⟩
        · exact Or.inl h2
        · rcases List.mem_cons.mp hm with hm | hm
          · simp only [Prod.mk.injEq] at hm
            rw [hm.1, hnone] at hf
            exact absurd hf (by simp)
          · exact Or.inr ⟨k, v, w, hm, hf⟩
    · rename_i rv hsome
      split
      · rename_i hne
        simp only [Bool.true_eq_false, false_iff, not_and]
        intro h1
        exact absurd (h1 k' v' rv (List.mem_cons_self _ _) hsome) hne
      · rename_i heq
        have heq : v' = rv := not_not.mp heq
        rw [ih]
        constructor
        · rintro ⟨h1, _⟩
          refine ⟨?_, Or.inr ⟨k', v', rv, List.mem_cons_self _ _, hsome⟩⟩
          intro k v w hm hf
          rcases List.mem_cons.mp hm with hm | hm
          · simp only [Prod.mk.injEq] at hm
            rw [hm.1, hsome] at hf
            simp only [Option.some.injEq] at hf
            rw [hm.2, heq, hf]
          · exact h1 k v w hm hf
        · rintro ⟨h1, _⟩
          exact ⟨fun k v w hm hf => h1 k v w (List.mem_cons_of_mem _ hm) hf,
            Or.inl (Nat.succ_ne_zero _)⟩

theorem operator_ne_eq_false_iff (l r : Etat) :
    operator_ne l r = false ↔
      (∃ k v w, l.infos.find? k = some v ∧ r.infos.find? k = some w) ∧
      ∀ k v w, l.infos.find? k = some v → r.infos.find? k = some w → v = w := by
  unfold operator_ne
  rw [neLoop_eq_false_iff]
  simp only [ne_eq, not_true_eq_false, false_or, StdMap.find?_eq_some_iff]
  exact And.comm

/-- C1: `operator==` holds exactly when some fact-name is present in both states and every
fact-name present in both has the same value in both; `operator!=` holds exactly when
that fails, and is the negation of `operator==`. -/
theorem operator_eq_iff_shared_facts_agree (l r : Etat) :
    (operator_eq l r = true ↔
      (∃ k v w, l.infos.find? k = some v ∧ r.infos.find? k = some w) ∧
      ∀ k v w, l.infos.find? k = some v → r.infos.find? k = some w → v = w) ∧
    (operator_ne l r = true ↔
      ¬ ((∃ k v w, l.infos.find? k = some v ∧ r.infos.find? k = some w) ∧
      ∀ k v w, l.infos.find? k = some v → r.infos.find? k = some w → v = w)) ∧
    operator_ne l r = !operator_eq l r := by
  refine ⟨?_, ?_, ?_⟩
  · rw [← operator_ne_eq_false_iff]
    simp [operator_eq]
  · rw [← operator_ne_eq_false_iff]
    simp
  · simp [operator_eq]

/-! ## Lemmas on the planner -/

theorem min_elementScan_spec (rest : List Sequence) (i : Nat) (s : Sequence) (smallest : Nat) :
    ∃ t, ((min_elementScan cmpSequence rest i s smallest = smallest ∧ t = s) ∨
        ∃ k, rest[k]? = some t ∧ min_elementScan cmpSequence rest i s smallest = i + k) ∧
      t.score ≤ s.score ∧ ∀ y ∈ rest, t.score ≤ y.score := by
  induction rest generalizing i s smallest with
  | nil => exact ⟨s, Or.inl ⟨rfl, rfl⟩, le_refl _, by simp⟩
  | cons x rest ih =>
    unfold min_elementScan
    split
    · rename_i hlt
      simp only [cmpSequence, decide_eq_true_eq] at hlt
      obtain ⟨t, hpos, hle, hall⟩ := ih (i + 1) x i
      refine ⟨t, Or.inr ?_, le_trans hle (le_of_lt hlt), ?_⟩
      · rcases hpos with ⟨hj, ht⟩ | ⟨k, hk, hj⟩
        · exact ⟨0, by simp [ht], by simp [hj]⟩
        · exact ⟨k + 1, by simpa using hk, by rw [hj]; omega⟩
      · intro y hy
        rcases List.mem_cons.mp hy with rfl | hy
        · exact hle
        · exact hall y hy
    · rename_i hnlt
      simp only [cmpSequence, decide_eq_true_eq, not_lt] at hnlt
      obtain ⟨t, hpos, hle, hall⟩ := ih (i + 1) s smallest
      refine ⟨t, ?_, hle, ?_⟩
      · rcases hpos with ⟨hj, ht⟩ | ⟨k, hk, hj⟩
        · exact Or.inl ⟨hj, ht⟩
        · exact Or.inr ⟨k + 1, by simpa using hk, by rw [hj]; omega⟩
      · intro y hy
        rcases List.mem_cons.mp hy with rfl | hy
        · exact le_trans hle hnlt
        · exact hall y hy

theorem min_element_spec (l : List Sequence) (j : Nat) (h : min_element cmpSequence l = some j) :
    ∃ t, l[j]? = some t ∧ ∀ y ∈ l, t.score ≤ y.score := by
  cases l with
  | nil => simp [min_element] at h
  | cons x rest =>
    simp only [min_element, Option.some.injEq] at h
    obtain ⟨t, hpos, hle, hall⟩ := min_elementScan_spec rest 1 x 0
    refine ⟨t, ?_, ?_⟩
    · rcases hpos with ⟨hj, ht⟩ | ⟨k, hk, hj⟩
      · rw [← h, hj, ht]; simp
      · rw [← h, hj, Nat.add_comm]; simpa using hk
    · intro y hy
      rcases List.mem_cons.mp hy with rfl | hy
      · exact hle
      · exact hall y hy

theorem expand_sound (etatVoulu : Etat) (seq : Sequence) (a : List (String × actionInterface))
    (sp sp2 : List Sequence) (h : expand etatVoulu seq a sp = some sp2) :
    ∀ n ∈ sp2, n ∈ sp ∨ ∃ first second pc scoreAction etat, (first, second) ∈ a ∧
      second.preConditions seq.etaTmp etatVoulu = some pc ∧ operator_ne pc seq.etaTmp = false ∧
      second.coutAction seq.etaTmp etatVoulu = some scoreAction ∧
      etatResultatTotal second seq.etaTmp etatVoulu = some etat ∧
      n = ⟨seq.seq ++ [first], etat, int32 (seq.score + scoreAction)⟩ := by
  induction a generalizing sp with
  | nil =>
    simp only [expand, Option.some.injEq] at h
    subst h; exact fun n hn => Or.inl hn
  | cons p rest ih =>
    obtain ⟨first, second⟩ := p
    unfold expand at h
    split at h
    · exact absurd h (by simp)
    · rename_i pc hpc
      split at h
      · intro n hn
        rcases ih sp h n hn with hn | ⟨f, s, pc2, k, e, hm, hrest⟩
        · exact Or.inl hn
        · exact Or.inr ⟨f, s, pc2, k, e, List.mem_cons_of_mem _ hm, hrest⟩
      · rename_i hok
        split at h
        · exact absurd h (by simp)
        · rename_i scoreAction hcost
          split at h
          · exact absurd h (by simp)
          · rename_i etat hres
            intro n hn
            rcases ih _ h n hn with hn | ⟨f, s, pc2, k, e, hm, hrest⟩
            · rcases List.mem_append.mp hn with hn | hn
              · exact Or.inl hn
              · refine Or.inr ⟨first, second, pc, scoreAction, etat, List.mem_cons_self _ _, hpc,
                  by simpa using hok, hcost, hres, ?_⟩
                simpa using hn
            · exact Or.inr ⟨f, s, pc2, k, e, List.mem_cons_of_mem _ hm, hrest⟩

theorem replay_append (actions : StdMap actionInterface) (etatVoulu : Etat) (q r : List String)
    (etat : Etat) (score : Int) :
    replay actions etatVoulu (q ++ r) etat score =
      match replay actions etatVoulu q etat score with
      | some (etat2, score2) => replay actions etatVoulu r etat2 score2
      | none => none := by
  induction q generalizing etat score with
  | nil => simp [replay]
  | cons nom suite ih =>
    simp only [List.cons_append, replay]
    split
    · rfl
    · split
      · rfl
      · split
        · rfl
        · split
          · exact ih _ _
          · rfl

theorem replay_step (actions : StdMap actionInterface) (etatVoulu : Etat) (nom : String)
    (a : actionInterface) (pc : Etat) (scoreAction : Int) (etat etat2 : Etat) (score : Int)
    (hm : (nom, a) ∈ actions.entries)
    (hpc : a.preConditions etat etatVoulu = some pc)
    (hok : operator_ne pc etat = false)
    (hcost : a.coutAction etat etatVoulu = some scoreAction)
    (hres : etatResultatTotal a etat etatVoulu = some etat2) :
    replay actions etatVoulu [nom] etat score = some (etat2, score + scoreAction) := by
  have hf : actions.find? nom = some a := (StdMap.find?_eq_some_iff _ _ _).mpr hm
  simp [replay, hf, hpc, hok, hcost, hres]

theorem int32_int32_add (a b : Int) : int32 (int32 a + b) = int32 (a + b) := by
  unfold int32
  omega

theorem int32_of_fits (x : Int) (h1 : -2147483648 ≤ x) (h2 : x < 2147483648) : int32 x = x := by
  unfold int32
  omega

theorem planLoop_sound (actions : StdMap actionInterface) (etatDepart etatVoulu : Etat)
    (seqResultat s : Sequence) (fuel : Nat) (sp : List Sequence)
    (hinv : ∀ n ∈ sp, ∃ total,
      replay actions etatVoulu n.seq etatDepart 0 = some (n.etaTmp, total) ∧
      n.score = int32 total)
    (h : planLoop actions etatVoulu seqResultat fuel sp = .returned (true, s)) :
    (∃ total, replay actions etatVoulu s.seq etatDepart 0 = some (s.etaTmp, total) ∧
      s.score = int32 total) ∧
      operator_eq s.etaTmp etatVoulu = true := by
  induction fuel generalizing sp with
  | zero => simp [planLoop] at h
  | succ fuel ih =>
    unfold planLoop at h
    split at h
    · exact absurd h (by simp)
    · rename_i i hi
      split at h
      · exact absurd h (by simp)
      · rename_i seq hseq
        have hmem : seq ∈ sp := List.getElem?_mem hseq
        split at h
        · rename_i hgoal
          simp only [Outcome.returned.injEq, Prod.mk.injEq, true_and] at h
          subst h
          exact ⟨hinv seq hmem, hgoal⟩
        · split at h
          · exact absurd h (by simp)
          · rename_i sp2 hexp
            split at h
            · simp at h
            · refine ih sp2 ?_ h
              intro n hn
              rcases expand_sound _ _ _ _ _ hexp n hn with
                hn | ⟨f, a, pc, k, e, hm, hpc, hok, hcost, hres, rfl⟩
              · exact hinv n (List.mem_of_mem_eraseIdx hn)
              · obtain ⟨total, hrep, hscore⟩ := hinv seq hmem
                refine ⟨total + k, ?_, ?_⟩
                · simp only
                  rw [replay_append, hrep]
                  simp only
                  rw [replay_step actions etatVoulu f a pc k seq.etaTmp e total hm hpc hok hcost
                    hres]
                · simp only
                  rw [hscore, int32_int32_add]

set_option maxRecDepth 100000 in
/-- Counterexample to C3: on the elevator registry, from floor 0 to floor 2147483647 with
open doors, the call returns the plan ferme, bouge, ouvre after 4 iterations with the
score -2147483647, because the `int` sum 1 + 2147483647 wraps around, while the sum of
the three costs is 2147483649. -/
theorem plan_score_wraps_around :
    calculePlanPourAtteindreEtat initAction 4 (etatAscenseur 0 1) (etatAscenseur 2147483647 1)
      Sequence.reset =
      .returned (true, ⟨["ferme", "bouge", "ouvre"], etatAscenseur 2147483647 1, -2147483647⟩) ∧
    replay initAction (etatAscenseur 2147483647 1) ["ferme", "bouge", "ouvre"]
      (etatAscenseur 0 1) 0 = some (etatAscenseur 2147483647 1, 2147483649) := by
  decide

/-- C3 (amended): a plan returned after a search replays from the start state: every name
is registered, the `preConditions` of its action are equivalent to the state reached so
far, folding `etatResultatTotal` gives exactly the returned state, and the returned state
is equivalent to the goal. The returned score is the sum `total` of `coutAction` at the
states met, reduced to the range of `int` by the wrap-around of the `int` additions; it
is that sum whenever the sum fits an `int`. -/
theorem plan_replays_to_goal (actions : StdMap actionInterface) (fuel : Nat)
    (etatDepart etatVoulu : Etat) (seqResultat s : Sequence)
    (hne : operator_eq etatDepart etatVoulu = false)
    (h : calculePlanPourAtteindreEtat actions fuel etatDepart etatVoulu seqResultat =
      .returned (true, s)) :
    ∃ total, replay actions etatVoulu s.seq etatDepart 0 = some (s.etaTmp, total) ∧
      s.score = int32 total ∧
      (-2147483648 ≤ total → total < 2147483648 → s.score = total) ∧
      operator_eq s.etaTmp etatVoulu = true := by
  unfold calculePlanPourAtteindreEtat at h
  rw [if_neg (by simp [hne])] at h
  obtain ⟨⟨total, hrep, hscore⟩, hgoal⟩ :=
    planLoop_sound actions etatDepart etatVoulu seqResultat s fuel _
      (fun n hn => by
        simp only [List.mem_singleton] at hn
        subst hn
        exact ⟨0, rfl, by
          show (0 : Int) = int32 0
          decide⟩) h
  exact ⟨total, hrep, hscore, fun h1 h2 => by rw [hscore, int32_of_fits total h1 h2], hgoal⟩

set_option maxRecDepth 100000 in
/-- Witness of the amended C3 on the elevator demo, from floor 0 to floor 4. -/
theorem plan_replays_to_goal_witness :
    ∃ total, replay initAction (etatAscenseur 4 1) ["ferme", "bouge", "ouvre"]
        (etatAscenseur 0 1) 0 = some (etatAscenseur 4 1, total) ∧
      (6 : Int) = int32 total ∧
      (-2147483648 ≤ total → total < 2147483648 → (6 : Int) = total) ∧
      operator_eq (etatAscenseur 4 1) (etatAscenseur 4 1) = true :=
  plan_replays_to_goal initAction 8 (etatAscenseur 0 1) (etatAscenseur 4 1) Sequence.reset
    ⟨["ferme", "bouge", "ouvre"], etatAscenseur 4 1, 6⟩ (by decide) (by decide)

set_option maxRecDepth 100000 in
/-- C4: on the elevator registry, from floor 0 with open doors to floor 4 with open
doors, the search ends within 8 iterations of its loop, whatever fuel is left and
whatever the caller's record held, with success, the plan ferme, bouge, ouvre, the state
floor 4 with open doors, and the score 6. -/
theorem elevator_plan_ferme_bouge_ouvre (extra : Nat) (seqResultat : Sequence) :
    calculePlanPourAtteindreEtat initAction (extra + 8) (etatAscenseur 0 1) (etatAscenseur 4 1)
      seqResultat =
    .returned (true, ⟨["ferme", "bouge", "ouvre"], etatAscenseur 4 1, 6⟩) := by
  rfl

theorem mapFind_mapSet {V : Type} (k k2 : String) (v : V) (l : List (String × V)) :
    mapFind k2 (mapSet k v l) = if k2 = k then some v else mapFind k2 l := by
  induction l with
  | nil => simp [mapSet, mapFind]
  | cons p rest ih =>
    obtain ⟨k1, v1⟩ := p
    unfold mapSet
    split
    · simp [mapFind]
    · split
      · rename_i heq
        subst heq
        by_cases h : k2 = k <;> simp [mapFind, h]
      · rename_i hne
        by_cases h : k2 = k
        · subst h
          have : ¬ k2 = k1 := hne
          simp [mapFind, this, ih]
        · simp [mapFind, h, ih]

theorem StdMap.find?_set {V : Type} (m : StdMap V) (k k2 : String) (v : V) :
    (m.set k v).find? k2 = if k2 = k then some v else m.find? k2 :=
  mapFind_mapSet k k2 v m.entries

theorem mapSet_mapSet {V : Type} (k : String) (v w : V) (l : List (String × V)) :
    mapSet k w (mapSet k v l) = mapSet k w l := by
  induction l with
  | nil => simp [mapSet, keyLt]
  | cons p rest ih =>
    obtain ⟨k1, v1⟩ := p
    by_cases h1 : keyLt k k1 = true
    · have hkk : keyLt k k = false := by
        cases hb : keyLt k k with
        | false => rfl
        | true => exact absurd ((keyLt_iff k k).mp hb) (lt_irrefl _)
      simp [mapSet, h1, hkk]
    · by_cases h2 : k = k1
      · subst h2
        simp [mapSet, h1]
      · simp [mapSet, h1, h2, ih]

theorem StdMap.set_set {V : Type} (m : StdMap V) (k : String) (v w : V) :
    (m.set k v).set k w = m.set k w := by
  cases m
  simp [StdMap.set, mapSet_mapSet]

theorem actionBouge_action_tick (etat voulu : Etat) (c g : Int)
    (hc : etat.infos.find? N_ETAGE = some c) (hg : voulu.infos.find? N_ETAGE = some g) :
    actionBouge.action_tick etat voulu =
      if c < g then some (decide (c + 1 = g), ⟨etat.infos.set N_ETAGE (c + 1)⟩)
      else if c > g then some (decide (c - 1 = g), ⟨etat.infos.set N_ETAGE (c - 1)⟩)
      else some (true, etat) := by
  simp only [actionBouge, hg, Etat.index, hc]
  by_cases h1 : c < g
  · simp only [h1, if_true, StdMap.find?_set]
    by_cases h : c + 1 = g <;> simp [h]
  · by_cases h2 : c > g
    · simp only [h1, h2, if_true, if_false, StdMap.find?_set]
      by_cases h : c - 1 = g <;> simp [h]
    · have : c = g := by omega
      simp [h1, h2, hc, this]

theorem Tick_bouge_en_cours (rest : List String) (etat voulu : Etat) (c g : Int)
    (hc : etat.infos.find? N_ETAGE = some c) (hg : voulu.infos.find? N_ETAGE = some g)
    (hcg : c ≠ g) :
    Tick initAction ⟨"bouge", rest, etat⟩ voulu =
      .returned (true, ⟨if versEtage c g 1 = g then "" else "bouge", rest,
        ⟨etat.infos.set N_ETAGE (versEtage c g 1)⟩⟩) := by
  have hreg : initAction.find? "bouge" = some actionBouge := rfl
  have hne : ¬ ("bouge" = "") := by decide
  simp only [Tick, hne, if_false, tickAction, hreg, actionBouge_action_tick etat voulu c g hc hg,
    versEtage]
  by_cases h1 : c < g
  · simp only [h1, if_true, Nat.cast_one]
    by_cases h : c + 1 = g <;> simp [h]
  · have h2 : c > g := by omega
    simp only [h1, h2, if_true, if_false, Nat.cast_one]
    by_cases h : c - 1 = g <;> simp [h]

theorem ticks_bouge (rest : List String) (voulu : Etat) (g : Int)
    (hg : voulu.infos.find? N_ETAGE = some g) (i : Nat) :
    ∀ (etat : Etat) (c : Int), etat.infos.find? N_ETAGE = some c → i ≤ (c - g).natAbs →
      ticks initAction voulu i ⟨if c = g then "" else "bouge", rest, etat⟩ =
        .returned (List.replicate i true,
          ⟨if i = (c - g).natAbs then "" else "bouge", rest,
            if i = 0 then etat else ⟨etat.infos.set N_ETAGE (versEtage c g i)⟩⟩) := by
  induction i with
  | zero =>
    intro etat c _ _
    have : (0 = (c - g).natAbs) ↔ c = g := by omega
    simp [ticks, this]
  | succ i ih =>
    intro etat c hc hi
    have hcg : c ≠ g := by omega
    simp only [hcg, if_false, ticks]
    rw [Tick_bouge_en_cours rest etat voulu c g hc hg hcg]
    simp only
    have hc2 : (⟨etat.infos.set N_ETAGE (versEtage c g 1)⟩ : Etat).infos.find? N_ETAGE =
        some (versEtage c g 1) := by
      simp [StdMap.find?_set]
    have hi2 : i ≤ (versEtage c g 1 - g).natAbs := by
      unfold versEtage; split <;> omega
    rw [ih _ _ hc2 hi2]
    have hlast : (i + 1 = (c - g).natAbs) ↔ (i = (versEtage c g 1 - g).natAbs) := by
      unfold versEtage; split <;> omega
    have hfloor : versEtage (versEtage c g 1) g i = versEtage c g (i + 1) := by
      unfold versEtage
      by_cases h1 : c < g
      · have : ((i : Int) = 0 ∨ c + 1 < g) := by omega
        rcases this with h | h
        · simp [h1, h]
        · simp only [h1, if_true, h, Nat.cast_one]; push_cast; omega
      · have : ((i : Int) = 0 ∨ ¬ (c - 1 < g)) := by omega
        rcases this with h | h
        · simp only [h1, if_false, Nat.cast_one, h]
          split <;> omega
        · simp only [h1, if_false, h, Nat.cast_one]; push_cast; omega
    simp only [Nat.add_one_ne_zero, if_false, hlast, List.replicate_succ]
    by_cases h0 : i = 0
    · subst h0
      simp
    · simp only [h0, if_false, StdMap.set_set, hfloor]

theorem ticks_add (actions : StdMap actionInterface) (voulu : Etat) (i j : Nat) :
    ∀ (x x1 x2 : Executor) (bs : List Bool),
      ticks actions voulu i x = .returned (List.replicate i true, x1) →
      ticks actions voulu j x1 = .returned (bs, x2) →
      ticks actions voulu (i + j) x = .returned (List.replicate i true ++ bs, x2) := by
  induction i with
  | zero =>
    intro x x1 x2 bs h1 h2
    simp only [ticks, List.replicate_zero, Outcome.returned.injEq, Prod.mk.injEq, true_and] at h1
    subst h1
    simpa using h2
  | succ i ih =>
    intro x x1 x2 bs h1 h2
    rw [Nat.add_right_comm]
    unfold ticks at h1 ⊢
    split at h1
    · rename_i y hy
      split at h1
      · rename_i cs y2 hrec
        simp only [List.replicate_succ, Outcome.returned.injEq, Prod.mk.injEq, List.cons.injEq,
          true_and] at h1
        obtain ⟨rfl, rfl⟩ := h1
        rw [ih y y2 x2 bs hrec h2]
        simp [List.replicate_succ]
      · exact absurd h1 (by simp)
      · exact absurd h1 (by simp)
      · exact absurd h1 (by simp)
    · simp [List.replicate_succ] at h1
    · exact absurd h1 (by simp)
    · exact absurd h1 (by simp)
    · exact absurd h1 (by simp)

/-- C5: from an idle executor at floor `f` with open doors, with the pending sequence
ferme, bouge, ouvre and the goal floor `g ≠ f` with open doors, the first `|f - g| + 2`
calls of `Tick` return true and the next one returns false; the pending sequence is then
empty, no action is in progress and the state is floor `g` with open doors. -/
theorem elevator_execution_ticks (f g : Int) (hfg : f ≠ g) :
    ticks initAction (etatAscenseur g 1) ((f - g).natAbs + 3)
        ⟨"", ["ferme", "bouge", "ouvre"], etatAscenseur f 1⟩ =
      .returned (List.replicate ((f - g).natAbs + 2) true ++ [false],
        ⟨"", [], etatAscenseur g 1⟩) := by
  have hn : 0 < (f - g).natAbs := by omega
  have hgf : (etatAscenseur g 1).infos.find? N_ETAGE = some g := rfl
  have hff : (etatAscenseur f 0).infos.find? N_ETAGE = some f := rfl
  have hmove := ticks_bouge ["ouvre"] (etatAscenseur g 1) g hgf (f - g).natAbs
    (etatAscenseur f 0) f hff (le_refl _)
  simp only [hfg, if_false, if_true, Nat.ne_of_gt hn] at hmove
  have hfloor : versEtage f g (f - g).natAbs = g := by
    unfold versEtage; split <;> omega
  have hstate : (⟨(etatAscenseur f 0).infos.set N_ETAGE g⟩ : Etat) = etatAscenseur g 0 := rfl
  rw [hfloor, hstate] at hmove
  have hend : ticks initAction (etatAscenseur g 1) 2 ⟨"", ["ouvre"], etatAscenseur g 0⟩ =
      .returned ([true, false], ⟨"", [], etatAscenseur g 1⟩) := rfl
  have hmid := ticks_add initAction (etatAscenseur g 1) (f - g).natAbs 2 _ _ _ _ hmove hend
  have hfirst : Tick initAction ⟨"", ["ferme", "bouge", "ouvre"], etatAscenseur f 1⟩
      (etatAscenseur g 1) = .returned (true, ⟨"", ["bouge", "ouvre"], etatAscenseur f 0⟩) := rfl
  have hdequeue : ∀ n, ticks initAction (etatAscenseur g 1) (n + 1)
      ⟨"", ["bouge", "ouvre"], etatAscenseur f 0⟩ =
      ticks initAction (etatAscenseur g 1) (n + 1) ⟨"bouge", ["ouvre"], etatAscenseur f 0⟩ :=
    fun n => rfl
  have hsplit : (f - g).natAbs + 3 = ((f - g).natAbs - 1 + 2 + 1) + 1 := by omega
  have hsplit2 : (f - g).natAbs - 1 + 2 + 1 = (f - g).natAbs + 2 := by omega
  rw [hsplit]
  unfold ticks
  rw [hfirst]
  simp only
  rw [hdequeue, hsplit2, hmid]
  have hlist : true :: (List.replicate (f - g).natAbs true ++ [true, false]) =
      List.replicate ((f - g).natAbs + 2) true ++ [false] := by
    have h1 : List.replicate ((f - g).natAbs + 2) true =
        true :: (List.replicate (f - g).natAbs true ++ [true]) := by
      rw [show (f - g).natAbs + 2 = ((f - g).natAbs + 1) + 1 from rfl, List.replicate_succ,
        List.replicate_succ']
    rw [h1]
    simp
  simp only
  rw [hlist]

set_option maxRecDepth 100000 in
/-- Witness of C5: from floor 0 to floor 4, six calls return true and the seventh false. -/
theorem elevator_execution_ticks_witness :
    (0 : Int) ≠ 4 ∧
    ticks initAction (etatAscenseur 4 1) 7 ⟨"", ["ferme", "bouge", "ouvre"], etatAscenseur 0 1⟩ =
      .returned ([true, true, true, true, true, true, false], ⟨"", [], etatAscenseur 4 1⟩) :=
  ⟨by decide, elevator_execution_ticks 0 4 (by decide)⟩

/-! ## The trivial plan and the unreachable goal -/

set_option maxRecDepth 100000 in
/-- C6, evaluated on the code: with a start equivalent to the goal and a caller's record
that still holds the plan ouvre of score 5, the early return reports success without
writing the record, which still holds that plan and not the empty plan of cost 0. -/
theorem trivial_plan_keeps_stale_record :
    operator_eq (etatAscenseur 0 1) (etatAscenseur 0 1) = true ∧
    calculePlanPourAtteindreEtat initAction 8 (etatAscenseur 0 1) (etatAscenseur 0 1)
      ⟨["ouvre"], etatAscenseur 0 1, 5⟩ = .returned (true, ⟨["ouvre"], etatAscenseur 0 1, 5⟩) ∧
    ¬ ∃ s, calculePlanPourAtteindreEtat initAction 8 (etatAscenseur 0 1) (etatAscenseur 0 1)
      ⟨["ouvre"], etatAscenseur 0 1, 5⟩ = .returned (true, s) ∧ s.seq = [] ∧ s.score = 0 := by
  refine ⟨by decide, by decide, ?_⟩
  rintro ⟨s, hs, hseq, _⟩
  have h : calculePlanPourAtteindreEtat initAction 8 (etatAscenseur 0 1) (etatAscenseur 0 1)
      ⟨["ouvre"], etatAscenseur 0 1, 5⟩ = .returned (true, ⟨["ouvre"], etatAscenseur 0 1, 5⟩) := by
    decide
  rw [h] at hs
  simp only [Outcome.returned.injEq, Prod.mk.injEq, true_and] at hs
  rw [← hs] at hseq
  exact absurd hseq (by simp)

/-- When the start is equivalent to the goal the call reports success and leaves the
caller's record as it was, for every registry and whatever the fuel; for a record that
is freshly constructed or reset that is the empty sequence with cost 0. -/
theorem trivial_plan_leaves_record (actions : StdMap actionInterface) (fuel : Nat)
    (etatDepart etatVoulu : Etat) (seqResultat : Sequence)
    (h : operator_eq etatDepart etatVoulu = true) :
    calculePlanPourAtteindreEtat actions fuel etatDepart etatVoulu seqResultat =
      .returned (true, seqResultat) ∧
    calculePlanPourAtteindreEtat actions fuel etatDepart etatVoulu Sequence.reset =
      .returned (true, ⟨[], ⟨StdMap.empty⟩, 0⟩) := by
  simp [calculePlanPourAtteindreEtat, h, Sequence.reset]

theorem expand_none_applicable (etatVoulu : Etat) (seq : Sequence)
    (a : List (String × actionInterface)) (sp : List Sequence)
    (h : ∀ nom act, (nom, act) ∈ a →
      ∃ pc, act.preConditions seq.etaTmp etatVoulu = some pc ∧ operator_eq pc seq.etaTmp = false) :
    expand etatVoulu seq a sp = some sp := by
  induction a with
  | nil => rfl
  | cons p rest ih =>
    obtain ⟨first, second⟩ := p
    obtain ⟨pc, hpc, hno⟩ := h first second (List.mem_cons_self _ _)
    have hne : operator_ne pc seq.etaTmp = true := by simpa [operator_eq] using hno
    unfold expand
    simp only [hpc, hne, if_true]
    exact ih (fun nom act hm => h nom act (List.mem_cons_of_mem _ hm))

set_option maxRecDepth 100000 in
/-- Counterexample to C7: on the elevator registry, from the state that holds only the
doors fact at 5 to the goal doors 0, no action has `preConditions` equivalent to the
start (ferme asks doors 1, ouvre asks doors 0, and those of bouge return no state: its
`map::at` on the floor, absent from the start, throws), the start is not equivalent to
the goal, and the call throws in its first expansion instead of returning false. -/
theorem unreachable_goal_throws :
    operator_eq ⟨StdMap.empty.set PORTE_OUV 5⟩ ⟨StdMap.empty.set PORTE_OUV 0⟩ = false ∧
    initAction.entries.map Prod.fst = ["bouge", "ferme", "ouvre"] ∧
    actionBouge.preConditions ⟨StdMap.empty.set PORTE_OUV 5⟩ ⟨StdMap.empty.set PORTE_OUV 0⟩ =
      none ∧
    actionFermePorte.preConditions ⟨StdMap.empty.set PORTE_OUV 5⟩
      ⟨StdMap.empty.set PORTE_OUV 0⟩ = some ⟨StdMap.empty.set PORTE_OUV 1⟩ ∧
    operator_eq ⟨StdMap.empty.set PORTE_OUV 1⟩ ⟨StdMap.empty.set PORTE_OUV 5⟩ = false ∧
    actionOuvrePorte.preConditions ⟨StdMap.empty.set PORTE_OUV 5⟩
      ⟨StdMap.empty.set PORTE_OUV 0⟩ = some ⟨StdMap.empty.set PORTE_OUV 0⟩ ∧
    operator_eq ⟨StdMap.empty.set PORTE_OUV 0⟩ ⟨StdMap.empty.set PORTE_OUV 5⟩ = false ∧
    calculePlanPourAtteindreEtat initAction 1 ⟨StdMap.empty.set PORTE_OUV 5⟩
      ⟨StdMap.empty.set PORTE_OUV 0⟩ Sequence.reset = .thrown := by
  decide

/-- C7 (amended): when the start is not equivalent to the goal and the `preConditions` of
every registered action, taken at the start, return a state that is not equivalent to
the start, one iteration of the search loop is enough for the call to end: it returns
false and leaves the caller's record as it was. -/
theorem unreachable_goal_returns_false (actions : StdMap actionInterface) (extra : Nat)
    (etatDepart etatVoulu : Etat) (seqResultat : Sequence)
    (hne : operator_eq etatDepart etatVoulu = false)
    (hpre : ∀ nom a, actions.find? nom = some a →
      ∃ pc, a.preConditions etatDepart etatVoulu = some pc ∧ operator_eq pc etatDepart = false) :
    calculePlanPourAtteindreEtat actions (extra + 1) etatDepart etatVoulu seqResultat =
      .returned (false, seqResultat) := by
  have hexp : expand etatVoulu ⟨[], etatDepart, 0⟩ actions.entries [] = some [] :=
    expand_none_applicable etatVoulu ⟨[], etatDepart, 0⟩ actions.entries []
      (fun nom act hm => hpre nom act ((StdMap.find?_eq_some_iff _ _ _).mpr hm))
  simp [calculePlanPourAtteindreEtat, hne, planLoop, min_element, min_elementScan, hexp]

/-- Witness of C7: the registry that holds only ouvre, whose precondition (doors closed)
fails at the start, from floor 0 to floor 4 with open doors. -/
theorem unreachable_goal_returns_false_witness :
    operator_eq (etatAscenseur 0 1) (etatAscenseur 4 1) = false ∧
    calculePlanPourAtteindreEtat (StdMap.empty.set "ouvre" actionOuvrePorte) 1
      (etatAscenseur 0 1) (etatAscenseur 4 1) ⟨["ouvre"], etatAscenseur 0 1, 5⟩ =
      .returned (false, ⟨["ouvre"], etatAscenseur 0 1, 5⟩) :=
  ⟨by decide, unreachable_goal_returns_false (StdMap.empty.set "ouvre" actionOuvrePorte) 0
    (etatAscenseur 0 1) (etatAscenseur 4 1) ⟨["ouvre"], etatAscenseur 0 1, 5⟩ (by decide)
    (fun nom a h => by
      have hm := (StdMap.find?_eq_some_iff _ _ _).mp h
      have hentries : (StdMap.empty.set "ouvre" actionOuvrePorte).entries =
          [("ouvre", actionOuvrePorte)] := rfl
      rw [hentries] at hm
      simp only [List.mem_singleton, Prod.mk.injEq] at hm
      obtain ⟨_, rfl⟩ := hm
      exact ⟨⟨StdMap.empty.set PORTE_OUV 0⟩, rfl, by decide⟩)⟩

/-! ## The executor -/

/-- Counterexample to C8: on the elevator registry, with bouge at the front of the
pending sequence and a goal that holds no floor, `action_tick` of bouge throws
(`map::at` on the absent key), so the call of `Tick` does not return true although work
is pending. -/
theorem Tick_throws_without_goal_floor :
    ¬ (("" : String) = "" ∧ ["bouge"] = ([] : List String)) ∧
    Tick initAction ⟨"", ["bouge"], etatAscenseur 0 0⟩ ⟨StdMap.empty.set PORTE_OUV 1⟩ =
      .thrown ∧
    ¬ ∃ x2, Tick initAction ⟨"", ["bouge"], etatAscenseur 0 0⟩ ⟨StdMap.empty.set PORTE_OUV 1⟩ =
      .returned (true, x2) := by
  have h : Tick initAction ⟨"", ["bouge"], etatAscenseur 0 0⟩ ⟨StdMap.empty.set PORTE_OUV 1⟩ =
      .thrown := by decide
  refine ⟨by simp, h, ?_⟩
  rintro ⟨x2, hx⟩
  rw [h] at hx
  exact absurd hx (by simp)

/-- C8 (amended): `Tick` returns false exactly when no action is in progress and the
pending sequence is empty, and then leaves the executor as it was. In every other case
there is an action to run (the one in progress, else the front of the sequence) and
`Tick` returns true whenever that action is registered and its `action_tick` returns;
for an unregistered name the call is undefined, and when `action_tick` throws so does
`Tick`. -/
theorem Tick_returns_false_iff_idle (actions : StdMap actionInterface) (x : Executor)
    (etatVoulu : Etat) :
    (x.actionEnCours = "" ∧ x.sequenceActions = [] →
      Tick actions x etatVoulu = .returned (false, x)) ∧
    (∀ x2, Tick actions x etatVoulu = .returned (false, x2) →
      x.actionEnCours = "" ∧ x.sequenceActions = []) ∧
    (¬ (x.actionEnCours = "" ∧ x.sequenceActions = []) →
      ∃ nom, actionATicker x = some nom ∧
        (actions.find? nom = none → Tick actions x etatVoulu = .undefined) ∧
        (∀ a, actions.find? nom = some a → a.action_tick x.etatActuel etatVoulu = none →
          Tick actions x etatVoulu = .thrown) ∧
        (∀ a fini etat, actions.find? nom = some a →
          a.action_tick x.etatActuel etatVoulu = some (fini, etat) →
          ∃ x2, Tick actions x etatVoulu = .returned (true, x2))) := by
  obtain ⟨enCours, pending, etatActuel⟩ := x
  refine ⟨?_, ?_, ?_⟩
  · rintro ⟨h1, h2⟩
    simp only at h1 h2
    subst h1 h2
    simp [Tick]
  · intro x2 h
    unfold Tick at h
    split at h
    · rename_i hidle
      split at h
      · rename_i hempty
        exact ⟨hidle, hempty⟩
      · unfold tickAction at h
        split at h
        · exact absurd h (by simp)
        · split at h
          · exact absurd h (by simp)
          · simp at h
    · unfold tickAction at h
      split at h
      · exact absurd h (by simp)
      · split at h
        · exact absurd h (by simp)
        · simp at h
  · intro hwork
    simp only [not_and] at hwork
    by_cases hidle : enCours = ""
    · cases pending with
      | nil => exact absurd rfl (hwork hidle)
      | cons front rest =>
        refine ⟨front, by simp [actionATicker, hidle], ?_, ?_, ?_⟩
        · intro hf
          simp [Tick, hidle, tickAction, hf]
        · intro a hf ht
          simp [Tick, hidle, tickAction, hf, ht]
        · intro a fini etat hf ht
          simp [Tick, hidle, tickAction, hf, ht]
    · refine ⟨enCours, by simp [actionATicker, hidle], ?_, ?_, ?_⟩
      · intro hf
        simp [Tick, hidle, tickAction, hf]
      · intro a hf ht
        simp [Tick, hidle, tickAction, hf, ht]
      · intro a fini etat hf ht
        simp [Tick, hidle, tickAction, hf, ht]

/-- Witness of the amended C8: the idle executor with nothing pending, and the executor
with ferme pending on the elevator registry. -/
theorem Tick_returns_false_iff_idle_witness :
    Tick initAction ⟨"", [], etatAscenseur 0 1⟩ (etatAscenseur 4 1) =
      .returned (false, ⟨"", [], etatAscenseur 0 1⟩) ∧
    ∃ nom, actionATicker ⟨"", ["ferme"], etatAscenseur 0 1⟩ = some nom ∧
      ∃ x2, Tick initAction ⟨"", ["ferme"], etatAscenseur 0 1⟩ (etatAscenseur 4 1) =
        .returned (true, x2) := by
  refine ⟨(Tick_returns_false_iff_idle initAction ⟨"", [], etatAscenseur 0 1⟩
    (etatAscenseur 4 1)).1 ⟨rfl, rfl⟩, ?_⟩
  obtain ⟨nom, hnom, _, _, hret⟩ := (Tick_returns_false_iff_idle initAction
    ⟨"", ["ferme"], etatAscenseur 0 1⟩ (etatAscenseur 4 1)).2.2 (by simp)
  have hn : nom = "ferme" := by
    simp only [actionATicker, if_true, List.head?_cons, Option.some.injEq] at hnom
    exact hnom.symm
  subst hn
  exact ⟨"ferme", hnom, hret actionFermePorte true ⟨(etatAscenseur 0 1).infos.set PORTE_OUV 0⟩
    rfl rfl⟩

/-- Counterexample to C9: with the current floor equal to the goal floor (both 3) the
distance is 0, yet bouge is still in progress before any call, and it is the first call
of `Tick` that completes it, leaving the floor at 3. -/
theorem bouge_same_floor_completes_at_first_call :
    ((3 : Int) - 3).natAbs = 0 ∧
    ticks initAction (etatAscenseur 3 1) 0 ⟨"bouge", [], etatAscenseur 3 0⟩ =
      .returned ([], ⟨"bouge", [], etatAscenseur 3 0⟩) ∧
    Tick initAction ⟨"bouge", [], etatAscenseur 3 0⟩ (etatAscenseur 3 1) =
      .returned (true, ⟨"", [], etatAscenseur 3 0⟩) := by
  decide

/-- C9 (amended): when bouge is in progress, the current floor is `c`, the goal floor is
`g` and `c ≠ g`, each of the first `|c - g|` calls of `Tick` returns true and moves the
floor by one towards `g`, leaving the other facts and the pending sequence as they were;
bouge is still in progress after fewer than `|c - g|` calls and the current action is
cleared by the call number `|c - g|`. -/
theorem bouge_completes_at_distance (rest : List String) (etat voulu : Etat) (c g : Int)
    (hc : etat.infos.find? N_ETAGE = some c) (hg : voulu.infos.find? N_ETAGE = some g)
    (hcg : c ≠ g) (i : Nat) (hi : i ≤ (c - g).natAbs) :
    ∃ x, ticks initAction voulu i ⟨"bouge", rest, etat⟩ = .returned (List.replicate i true, x) ∧
      x.actionEnCours = (if i = (c - g).natAbs then "" else "bouge") ∧
      x.sequenceActions = rest ∧
      x.etatActuel.infos.find? N_ETAGE = some (if c < g then c + i else c - i) ∧
      ∀ k, k ≠ N_ETAGE → x.etatActuel.infos.find? k = etat.infos.find? k := by
  have h := ticks_bouge rest voulu g hg i etat c hc hi
  simp only [hcg, if_false] at h
  refine ⟨_, h, rfl, rfl, ?_, ?_⟩
  · by_cases h0 : i = 0
    · subst h0
      simp [hc]
    · simp [h0, StdMap.find?_set, versEtage]
  · intro k hk
    by_cases h0 : i = 0
    · simp [h0]
    · simp [h0, StdMap.find?_set, hk]

set_option maxRecDepth 100000 in
/-- Witness of the amended C9: from floor 0 to floor 4, after three calls bouge is still
in progress at floor 3, after four it is cleared at floor 4. -/
theorem bouge_completes_at_distance_witness :
    (∃ x, ticks initAction (etatAscenseur 4 1) 3 ⟨"bouge", ["ouvre"], etatAscenseur 0 0⟩ =
        .returned ([true, true, true], x) ∧ x.actionEnCours = "bouge" ∧
      x.sequenceActions = ["ouvre"] ∧ x.etatActuel.infos.find? N_ETAGE = some 3 ∧
      ∀ k, k ≠ N_ETAGE → x.etatActuel.infos.find? k = (etatAscenseur 0 0).infos.find? k) ∧
    (∃ x, ticks initAction (etatAscenseur 4 1) 4 ⟨"bouge", ["ouvre"], etatAscenseur 0 0⟩ =
        .returned ([true, true, true, true], x) ∧ x.actionEnCours = "" ∧
      x.sequenceActions = ["ouvre"] ∧ x.etatActuel.infos.find? N_ETAGE = some 4 ∧
      ∀ k, k ≠ N_ETAGE → x.etatActuel.infos.find? k = (etatAscenseur 0 0).infos.find? k) :=
  ⟨bouge_completes_at_distance ["ouvre"] (etatAscenseur 0 0) (etatAscenseur 4 1) 0 4 rfl rfl
      (by decide) 3 (by decide),
    bouge_completes_at_distance ["ouvre"] (etatAscenseur 0 0) (etatAscenseur 4 1) 0 4 rfl rfl
      (by decide) 4 (by decide)⟩

/-! ## The merge of an action's results -/

theorem etatResultatTotalLoop_find? (itr : List (String × Int))
    (hasc : (itr.map Prod.fst).Pairwise (· < ·)) (total : Etat) (k : String) :
    (etatResultatTotalLoop itr total).infos.find? k =
      match mapFind k itr with
      | some v => some v
      | none => total.infos.find? k := by
  induction itr generalizing total with
  | nil => simp [etatResultatTotalLoop, mapFind]
  | cons p rest ih =>
    obtain ⟨first, second⟩ := p
    simp only [List.map_cons, List.pairwise_cons] at hasc
    unfold etatResultatTotalLoop
    rw [ih hasc.2]
    by_cases hk : k = first
    · subst hk
      have hnone : mapFind k rest = none := by
        cases hf : mapFind k rest with
        | none => rfl
        | some v =>
          have hm := mapFind_isSome_mem_keys k rest v hf
          exact absurd (hasc.1 k (List.mem_map.mpr ⟨(k, v), hm, rfl⟩)) (lt_irrefl _)
      simp [hnone, mapFind, StdMap.find?_set]
    · simp only [mapFind, hk, if_false, StdMap.find?_set]

/-- C10: when `resultats` returns the state `res`, `etatResultatTotal` returns a state
whose fact-names are those of the initial state together with those of `res`; a
fact-name of `res` carries its value in `res`, every other fact-name its value in the
initial state. The model is a function of the initial state, which it cannot change. -/
theorem etatResultatTotal_merges (a : actionInterface) (etatInitial etatVoulu res : Etat)
    (hres : a.resultats etatInitial etatVoulu = some res) :
    ∃ total, etatResultatTotal a etatInitial etatVoulu = some total ∧
      (∀ k, (total.infos.find? k).isSome ↔
        ((etatInitial.infos.find? k).isSome ∨ (res.infos.find? k).isSome)) ∧
      (∀ k v, res.infos.find? k = some v → total.infos.find? k = some v) ∧
      (∀ k, res.infos.find? k = none → total.infos.find? k = etatInitial.infos.find? k) := by
  refine ⟨etatResultatTotalLoop res.infos.entries etatInitial, by simp [etatResultatTotal, hres],
    ?_, ?_, ?_⟩
  · intro k
    rw [etatResultatTotalLoop_find? _ res.infos.ascending]
    cases hf : mapFind k res.infos.entries with
    | none => simp [StdMap.find?, hf]
    | some v => simp [StdMap.find?, hf]
  · intro k v hk
    rw [etatResultatTotalLoop_find? _ res.infos.ascending]
    simp only [StdMap.find?] at hk
    simp [hk]
  · intro k hk
    rw [etatResultatTotalLoop_find? _ res.infos.ascending]
    simp only [StdMap.find?] at hk
    simp [hk]

/-- Witness of C10: `actionBouge` from floor 0 with closed doors towards floor 4. -/
theorem etatResultatTotal_merges_witness :
    actionBouge.resultats (etatAscenseur 0 0) (etatAscenseur 4 1) =
      some ⟨StdMap.empty.set N_ETAGE 4⟩ ∧
    ∃ total, etatResultatTotal actionBouge (etatAscenseur 0 0) (etatAscenseur 4 1) = some total ∧
      (∀ k, (total.infos.find? k).isSome ↔
        (((etatAscenseur 0 0).infos.find? k).isSome ∨
          ((⟨StdMap.empty.set N_ETAGE 4⟩ : Etat).infos.find? k).isSome)) ∧
      (∀ k v, (⟨StdMap.empty.set N_ETAGE 4⟩ : Etat).infos.find? k = some v →
        total.infos.find? k = some v) ∧
      (∀ k, (⟨StdMap.empty.set N_ETAGE 4⟩ : Etat).infos.find? k = none →
        total.infos.find? k = (etatAscenseur 0 0).infos.find? k) :=
  ⟨rfl, etatResultatTotal_merges actionBouge (etatAscenseur 0 0) (etatAscenseur 4 1)
    ⟨StdMap.empty.set N_ETAGE 4⟩ rfl⟩

/-! ## The overlap rule -/

/-- C11: a non-empty state `l` all of whose facts occur in `r` with the same values is
equivalent to `r`, whatever other facts `r` holds. -/
theorem operator_eq_of_facts_included (l r : Etat) (hl : l.infos.entries ≠ [])
    (hincl : ∀ k v, l.infos.find? k = some v → r.infos.find? k = some v) :
    operator_eq l r = true := by
  have hne : operator_ne l r = false := by
    rw [operator_ne_eq_false_iff]
    refine ⟨?_, ?_⟩
    · obtain ⟨⟨k, v⟩, hkv⟩ := List.exists_mem_of_ne_nil _ hl
      have hf : l.infos.find? k = some v := (StdMap.find?_eq_some_iff _ _ _).mpr hkv
      exact ⟨k, v, v, hf, hincl k v hf⟩
    · intro k v w hv hw
      rw [hincl k v hv] at hw
      exact Option.some.inj hw
  simp [operator_eq, hne]

/-- Witness of C11: `l` holds a = 1 and `r` holds a = 1 and b = 2. -/
theorem operator_eq_of_facts_included_witness :
    operator_eq ⟨StdMap.empty.set "a" 1⟩ ⟨(StdMap.empty.set "a" 1).set "b" 2⟩ = true :=
  operator_eq_of_facts_included ⟨StdMap.empty.set "a" 1⟩ ⟨(StdMap.empty.set "a" 1).set "b" 2⟩
    (by decide)
    (fun k v h => by
      rw [StdMap.find?_set] at h
      rw [StdMap.find?_set, StdMap.find?_set]
      by_cases hk : k = "a"
      · subst hk
        simpa using h
      · simp [hk, StdMap.find?, StdMap.empty, mapFind] at h)

/-- C12: two states with no fact-name in common are not equivalent, whatever their
values; in particular the empty state is not equivalent to the empty state. -/
theorem operator_eq_false_of_disjoint (l r : Etat)
    (hdisj : ∀ k, ¬ ((l.infos.find? k).isSome ∧ (r.infos.find? k).isSome)) :
    operator_eq l r = false ∧ operator_ne l r = true ∧
      operator_eq ⟨StdMap.empty⟩ ⟨StdMap.empty⟩ = false := by
  have hne : operator_ne l r = true := by
    cases h : operator_ne l r with
    | true => rfl
    | false =>
      obtain ⟨⟨k, v, w, hv, hw⟩, _⟩ := (operator_ne_eq_false_iff l r).mp h
      exact absurd ⟨by simp [hv], by simp [hw]⟩ (hdisj k)
  exact ⟨by simp [operator_eq, hne], hne, by decide⟩

/-- Witness of C12: `l` holds a = 1 and `r` holds b = 2. -/
theorem operator_eq_false_of_disjoint_witness :
    operator_eq ⟨StdMap.empty.set "a" 1⟩ ⟨StdMap.empty.set "b" 2⟩ = false ∧
      operator_ne ⟨StdMap.empty.set "a" 1⟩ ⟨StdMap.empty.set "b" 2⟩ = true ∧
      operator_eq ⟨StdMap.empty⟩ ⟨StdMap.empty⟩ = false :=
  operator_eq_false_of_disjoint ⟨StdMap.empty.set "a" 1⟩ ⟨StdMap.empty.set "b" 2⟩
    (fun k => by
      simp only [StdMap.find?_set, not_and]
      by_cases hk : k = "a"
      · subst hk
        intro _
        simp [StdMap.find?, StdMap.empty, mapFind]
      · simp [hk, StdMap.find?, StdMap.empty, mapFind])

/-- C17: the comparison of states is symmetric, for `operator==` and for `operator!=`;
it is not reflexive (the empty state is not equivalent to itself) and not transitive
(x = 1 is equivalent to x = 1, y = 1, which is equivalent to y = 1, but x = 1 is not
equivalent to y = 1). -/
theorem operator_eq_symmetric_not_reflexive_not_transitive (l r : Etat) :
    operator_eq l r = operator_eq r l ∧ operator_ne l r = operator_ne r l ∧
    operator_eq ⟨StdMap.empty⟩ ⟨StdMap.empty⟩ = false ∧
    (operator_eq ⟨StdMap.empty.set "x" 1⟩ ⟨(StdMap.empty.set "x" 1).set "y" 1⟩ = true ∧
      operator_eq ⟨(StdMap.empty.set "x" 1).set "y" 1⟩ ⟨StdMap.empty.set "y" 1⟩ = true ∧
      operator_eq ⟨StdMap.empty.set "x" 1⟩ ⟨StdMap.empty.set "y" 1⟩ = false) := by
  have hsym : ∀ a b : Etat, operator_ne a b = false → operator_ne b a = false := by
    intro a b h
    obtain ⟨⟨k, v, w, hv, hw⟩, hall⟩ := (operator_ne_eq_false_iff a b).mp h
    exact (operator_ne_eq_false_iff b a).mpr
      ⟨⟨k, w, v, hw, hv⟩, fun k2 v2 w2 h1 h2 => (hall k2 w2 v2 h2 h1).symm⟩
  have hne : operator_ne l r = operator_ne r l := by
    cases h1 : operator_ne l r with
    | false => exact (hsym l r h1).symm
    | true =>
      cases h2 : operator_ne r l with
      | true => rfl
      | false => rw [hsym r l h2] at h1; exact absurd h1 (by simp)
  refine ⟨by simp [operator_eq, hne], hne, by decide, by decide, by decide, by decide⟩

/-! ## The goal test of the planner -/

set_option maxRecDepth 100000 in
/-- Counterexample to C13: from floor 0 to floor 4, both with open doors, the fact of the
doors is shared with the same value, yet the states are not equivalent and the call
searches and returns the plan ferme, bouge, ouvre, not the empty plan. -/
theorem one_matching_fact_is_not_equivalence :
    (etatAscenseur 0 1).infos.find? PORTE_OUV = some 1 ∧
    (etatAscenseur 4 1).infos.find? PORTE_OUV = some 1 ∧
    operator_eq (etatAscenseur 0 1) (etatAscenseur 4 1) = false ∧
    calculePlanPourAtteindreEtat initAction 0 (etatAscenseur 0 1) (etatAscenseur 4 1)
      Sequence.reset = .outOfFuel ∧
    calculePlanPourAtteindreEtat initAction 8 (etatAscenseur 0 1) (etatAscenseur 4 1)
      Sequence.reset = .returned (true, ⟨["ferme", "bouge", "ouvre"], etatAscenseur 4 1, 6⟩) := by
  decide

/-- C13 (amended): when some fact-name is present in the start and in the goal and every
fact-name present in both has the same value in both, the start is equivalent to the
goal and the call reports success before its search loop: for every registry and
whatever fuel the loop is given, also none. -/
theorem plan_succeeds_without_search (actions : StdMap actionInterface) (fuel : Nat)
    (etatDepart etatVoulu : Etat) (seqResultat : Sequence)
    (hshared : ∃ k v w, etatDepart.infos.find? k = some v ∧ etatVoulu.infos.find? k = some w)
    (hall : ∀ k v w, etatDepart.infos.find? k = some v → etatVoulu.infos.find? k = some w →
      v = w) :
    operator_eq etatDepart etatVoulu = true ∧
    ∃ s, calculePlanPourAtteindreEtat actions fuel etatDepart etatVoulu seqResultat =
      .returned (true, s) := by
  have hne : operator_ne etatDepart etatVoulu = false :=
    (operator_ne_eq_false_iff _ _).mpr ⟨hshared, hall⟩
  have heq : operator_eq etatDepart etatVoulu = true := by simp [operator_eq, hne]
  exact ⟨heq, ⟨seqResultat, by simp [calculePlanPourAtteindreEtat, heq]⟩⟩

/-- Witness of the amended C13: start and goal both floor 4 with open doors. -/
theorem plan_succeeds_without_search_witness :
    operator_eq (etatAscenseur 4 1) (etatAscenseur 4 1) = true ∧
    ∃ s, calculePlanPourAtteindreEtat initAction 0 (etatAscenseur 4 1) (etatAscenseur 4 1)
      Sequence.reset = .returned (true, s) :=
  plan_succeeds_without_search initAction 0 (etatAscenseur 4 1) (etatAscenseur 4 1)
    Sequence.reset ⟨N_ETAGE, 4, 4, rfl, rfl⟩
    (fun k v w hv hw => by
      rw [hv] at hw
      exact Option.some.inj hw)

/-! ## The open collection of the search -/

theorem planLoop_succ (actions : StdMap actionInterface) (etatVoulu : Etat)
    (seqResultat : Sequence) (fuel : Nat) (sp : List Sequence) :
    planLoop actions etatVoulu seqResultat (fuel + 1) sp =
      match planIteration actions etatVoulu seqResultat sp with
      | .inl o => o
      | .inr sp2 => planLoop actions etatVoulu seqResultat fuel sp2 := by
  unfold planIteration
  rw [planLoop]
  split
  · rfl
  · split
    · rfl
    · split
      · rfl
      · split
        · rfl
        · split <;> rfl

theorem planIteration_inr (actions : StdMap actionInterface) (etatVoulu : Etat)
    (seqResultat : Sequence) (sp sp2 : List Sequence)
    (h : planIteration actions etatVoulu seqResultat sp = .inr sp2) :
    ∃ i seq, min_element cmpSequence sp = some i ∧ sp[i]? = some seq ∧
      operator_eq seq.etaTmp etatVoulu = false ∧
      expand etatVoulu seq actions.entries (sp.eraseIdx i) = some sp2 ∧ sp2 ≠ [] := by
  unfold planIteration at h
  split at h
  · exact absurd h (by simp)
  · rename_i i hi
    split at h
    · exact absurd h (by simp)
    · rename_i seq hseq
      split at h
      · exact absurd h (by simp)
      · rename_i hgoal
        split at h
        · exact absurd h (by simp)
        · rename_i sp3 hexp
          split at h
          · exact absurd h (by simp)
          · rename_i hlen
            simp only [Sum.inr.injEq] at h
            subst h
            refine ⟨i, seq, hi, hseq, by simpa using hgoal, hexp, ?_⟩
            intro hnil
            rw [hnil] at hlen
            simp at hlen

theorem planIteration_inl_true (actions : StdMap actionInterface) (etatVoulu : Etat)
    (seqResultat s : Sequence) (sp : List Sequence)
    (h : planIteration actions etatVoulu seqResultat sp = .inl (.returned (true, s))) :
    s ∈ sp := by
  unfold planIteration at h
  split at h
  · simp at h
  · split at h
    · simp at h
    · rename_i seq hseq
      split at h
      · simp only [Sum.inl.injEq, Outcome.returned.injEq, Prod.mk.injEq, true_and] at h
        subst h
        exact List.getElem?_mem hseq
      · split at h
        · simp at h
        · split at h
          · simp at h
          · simp at h

theorem expand_registered (actions : StdMap actionInterface) (etatVoulu : Etat) (seq : Sequence)
    (a : List (String × actionInterface)) (sp sp2 : List Sequence)
    (ha : ∀ p ∈ a, p ∈ actions.entries)
    (hseq : ∀ nom ∈ seq.seq, (actions.find? nom).isSome = true)
    (hsp : ∀ node ∈ sp, ∀ nom ∈ node.seq, (actions.find? nom).isSome = true)
    (h : expand etatVoulu seq a sp = some sp2) :
    ∀ node ∈ sp2, ∀ nom ∈ node.seq, (actions.find? nom).isSome = true := by
  intro node hnode nom hnom
  rcases expand_sound _ _ _ _ _ h node hnode with hold | ⟨f, act, _, _, _, hm, _, _, _, _, rfl⟩
  · exact hsp node hold nom hnom
  · simp only [List.mem_append, List.mem_singleton] at hnom
    rcases hnom with hnom | rfl
    · exact hseq nom hnom
    · have := (StdMap.find?_eq_some_iff actions nom act).mpr (ha _ hm)
      simp [this]

theorem sequencesPossiblesAt_registered (actions : StdMap actionInterface) (etatVoulu : Etat)
    (seqResultat : Sequence) (n : Nat) :
    ∀ sp sp2 : List Sequence,
      (∀ node ∈ sp, ∀ nom ∈ node.seq, (actions.find? nom).isSome = true) →
      sequencesPossiblesAt actions etatVoulu seqResultat n sp = some sp2 →
      ∀ node ∈ sp2, ∀ nom ∈ node.seq, (actions.find? nom).isSome = true := by
  induction n with
  | zero =>
    intro sp sp2 hsp h
    simp only [sequencesPossiblesAt, Option.some.injEq] at h
    subst h
    exact hsp
  | succ n ih =>
    intro sp sp2 hsp h
    unfold sequencesPossiblesAt at h
    split at h
    · exact absurd h (by simp)
    · rename_i sp3 hit
      obtain ⟨i, seq, _, hseq, _, hexp, _⟩ := planIteration_inr _ _ _ _ _ hit
      refine ih sp3 sp2 ?_ h
      exact expand_registered actions etatVoulu seq actions.entries _ sp3 (fun p hp => hp)
        (hsp seq (List.getElem?_mem hseq))
        (fun node hn => hsp node (List.mem_of_mem_eraseIdx hn)) hexp

theorem planLoop_registered (actions : StdMap actionInterface) (etatVoulu : Etat)
    (seqResultat s : Sequence) (fuel : Nat) :
    ∀ sp : List Sequence,
      (∀ node ∈ sp, ∀ nom ∈ node.seq, (actions.find? nom).isSome = true) →
      planLoop actions etatVoulu seqResultat fuel sp = .returned (true, s) →
      ∀ nom ∈ s.seq, (actions.find? nom).isSome = true := by
  induction fuel with
  | zero =>
    intro sp _ h
    simp [planLoop] at h
  | succ fuel ih =>
    intro sp hsp h
    rw [planLoop_succ] at h
    split at h
    · rename_i o hit
      subst h
      exact hsp s (planIteration_inl_true _ _ _ _ _ hit)
    · rename_i sp3 hit
      obtain ⟨i, seq, _, hseq, _, hexp, _⟩ := planIteration_inr _ _ _ _ _ hit
      refine ih sp3 ?_ h
      exact expand_registered actions etatVoulu seq actions.entries _ sp3 (fun p hp => hp)
        (hsp seq (List.getElem?_mem hseq))
        (fun node hn => hsp node (List.mem_of_mem_eraseIdx hn)) hexp

/-- C14: the search only builds sequences of registered names. At the start of every
iteration of the loop every node of the open collection holds only keys of the registry;
so does every node of the collection during the expansion of that iteration, after any
number `j` of registry entries has been visited; and so does every sequence returned
with success after a search. -/
theorem planner_emits_registered_names (actions : StdMap actionInterface)
    (etatDepart etatVoulu : Etat) (seqResultat : Sequence) :
    (∀ n sp, sequencesPossiblesAt actions etatVoulu seqResultat n [⟨[], etatDepart, 0⟩] = some sp →
      (∀ node ∈ sp, ∀ nom ∈ node.seq, (actions.find? nom).isSome = true) ∧
      ∀ i seq j sp2, min_element cmpSequence sp = some i → sp[i]? = some seq →
        expand etatVoulu seq (actions.entries.take j) (sp.eraseIdx i) = some sp2 →
        ∀ node ∈ sp2, ∀ nom ∈ node.seq, (actions.find? nom).isSome = true) ∧
    (∀ fuel s, operator_eq etatDepart etatVoulu = false →
      calculePlanPourAtteindreEtat actions fuel etatDepart etatVoulu seqResultat =
        .returned (true, s) →
      ∀ nom ∈ s.seq, (actions.find? nom).isSome = true) := by
  have hinit : ∀ node ∈ [(⟨[], etatDepart, 0⟩ : Sequence)], ∀ nom ∈ node.seq,
      (actions.find? nom).isSome = true := by
    intro node hn nom hnom
    simp only [List.mem_singleton] at hn
    subst hn
    simp at hnom
  refine ⟨?_, ?_⟩
  · intro n sp hsp
    have hreg := sequencesPossiblesAt_registered actions etatVoulu seqResultat n _ sp hinit hsp
    refine ⟨hreg, ?_⟩
    intro i seq j sp2 _ hseq hexp
    exact expand_registered actions etatVoulu seq (actions.entries.take j) _ sp2
      (fun p hp => List.mem_of_mem_take hp) (hreg seq (List.getElem?_mem hseq))
      (fun node hn => hreg node (List.mem_of_mem_eraseIdx hn)) hexp
  · intro fuel s hne h
    unfold calculePlanPourAtteindreEtat at h
    rw [if_neg (by simp [hne])] at h
    exact planLoop_registered actions etatVoulu seqResultat s fuel _ hinit h

set_option maxRecDepth 100000 in
/-- Witness of C14 on the elevator demo: the open collection at the start of the third
iteration, and the plan returned. -/
theorem planner_emits_registered_names_witness :
    (∀ node ∈ [(⟨["ferme", "bouge"], etatAscenseur 4 0, 5⟩ : Sequence),
        ⟨["ferme", "ouvre"], etatAscenseur 0 1, 2⟩],
      ∀ nom ∈ node.seq, (initAction.find? nom).isSome = true) ∧
    ∀ nom ∈ ["ferme", "bouge", "ouvre"], (initAction.find? nom).isSome = true :=
  ⟨((planner_emits_registered_names initAction (etatAscenseur 0 1) (etatAscenseur 4 1)
      Sequence.reset).1 2 _ (by decide)).1,
    (planner_emits_registered_names initAction (etatAscenseur 0 1) (etatAscenseur 4 1)
      Sequence.reset).2 8 ⟨["ferme", "bouge", "ouvre"], etatAscenseur 4 1, 6⟩ (by decide)
      (by decide)⟩

theorem min_element_of_ne_nil (sp : List Sequence) (h : sp ≠ []) :
    ∃ i seq, min_element cmpSequence sp = some i ∧ sp[i]? = some seq := by
  cases sp with
  | nil => exact absurd rfl h
  | cons x rest =>
    obtain ⟨t, ht, _⟩ := min_element_spec (x :: rest) _ rfl
    exact ⟨_, t, rfl, ht⟩

theorem sequencesPossiblesAt_ne_nil (actions : StdMap actionInterface) (etatVoulu : Etat)
    (seqResultat : Sequence) (n : Nat) :
    ∀ sp sp2 : List Sequence, sp ≠ [] →
      sequencesPossiblesAt actions etatVoulu seqResultat n sp = some sp2 → sp2 ≠ [] := by
  induction n with
  | zero =>
    intro sp sp2 hsp h
    simp only [sequencesPossiblesAt, Option.some.injEq] at h
    subst h
    exact hsp
  | succ n ih =>
    intro sp sp2 _ h
    unfold sequencesPossiblesAt at h
    split at h
    · exact absurd h (by simp)
    · rename_i sp3 hit
      obtain ⟨_, _, _, _, _, _, hne⟩ := planIteration_inr _ _ _ _ _ hit
      exact ih sp3 sp2 hne h

theorem planIteration_ne_undefined (actions : StdMap actionInterface) (etatVoulu : Etat)
    (seqResultat : Sequence) (sp : List Sequence) (hsp : sp ≠ []) :
    planIteration actions etatVoulu seqResultat sp ≠ .inl .undefined := by
  obtain ⟨i, seq, hi, hseq⟩ := min_element_of_ne_nil sp hsp
  unfold planIteration
  simp only [hi, hseq]
  split
  · simp
  · split
    · simp
    · split <;> simp

theorem planLoop_ne_undefined (actions : StdMap actionInterface) (etatVoulu : Etat)
    (seqResultat : Sequence) (fuel : Nat) :
    ∀ sp : List Sequence, sp ≠ [] →
      planLoop actions etatVoulu seqResultat fuel sp ≠ .undefined := by
  induction fuel with
  | zero =>
    intro sp _
    simp [planLoop]
  | succ fuel ih =>
    intro sp hsp
    rw [planLoop_succ]
    split
    · rename_i o hit
      intro ho
      subst ho
      exact planIteration_ne_undefined actions etatVoulu seqResultat sp hsp hit
    · rename_i sp2 hit
      obtain ⟨_, _, _, _, _, _, hne⟩ := planIteration_inr _ _ _ _ _ hit
      exact ih sp2 hne

/-- C18: at the start of every iteration of the search loop the open collection holds at
least one node, `min_element` returns the position of one of its elements, which the
dereference reads and `erase` removes; the call never reaches the undefined dereference
of `end()`. -/
theorem open_collection_never_empty (actions : StdMap actionInterface)
    (etatDepart etatVoulu : Etat) (seqResultat : Sequence) :
    (∀ n sp, sequencesPossiblesAt actions etatVoulu seqResultat n [⟨[], etatDepart, 0⟩] = some sp →
      sp ≠ [] ∧ ∃ i seq, min_element cmpSequence sp = some i ∧ i < sp.length ∧
        sp[i]? = some seq ∧ (sp.eraseIdx i).length + 1 = sp.length) ∧
    ∀ fuel, calculePlanPourAtteindreEtat actions fuel etatDepart etatVoulu seqResultat ≠
      .undefined := by
  refine ⟨?_, ?_⟩
  · intro n sp h
    have hne := sequencesPossiblesAt_ne_nil actions etatVoulu seqResultat n _ sp (by simp) h
    obtain ⟨i, seq, hi, hseq⟩ := min_element_of_ne_nil sp hne
    have hlt : i < sp.length := by
      by_contra hge
      rw [List.getElem?_eq_none (by omega)] at hseq
      exact absurd hseq (by simp)
    refine ⟨hne, i, seq, hi, hlt, hseq, ?_⟩
    rw [List.length_eraseIdx, if_pos hlt]
    omega
  · intro fuel
    unfold calculePlanPourAtteindreEtat
    split
    · simp
    · exact planLoop_ne_undefined actions etatVoulu seqResultat fuel _ (by simp)

set_option maxRecDepth 100000 in
/-- Witness of C18 on the elevator demo: the open collection at the start of the third
iteration holds two nodes and the minimum is the second. -/
theorem open_collection_never_empty_witness :
    sequencesPossiblesAt initAction (etatAscenseur 4 1) Sequence.reset 2
        [⟨[], etatAscenseur 0 1, 0⟩] =
      some [⟨["ferme", "bouge"], etatAscenseur 4 0, 5⟩, ⟨["ferme", "ouvre"], etatAscenseur 0 1, 2⟩] ∧
    ([(⟨["ferme", "bouge"], etatAscenseur 4 0, 5⟩ : Sequence),
        ⟨["ferme", "ouvre"], etatAscenseur 0 1, 2⟩] ≠ [] ∧
      ∃ i seq, min_element cmpSequence [(⟨["ferme", "bouge"], etatAscenseur 4 0, 5⟩ : Sequence),
          ⟨["ferme", "ouvre"], etatAscenseur 0 1, 2⟩] = some i ∧
        i < [(⟨["ferme", "bouge"], etatAscenseur 4 0, 5⟩ : Sequence),
          ⟨["ferme", "ouvre"], etatAscenseur 0 1, 2⟩].length ∧
        [(⟨["ferme", "bouge"], etatAscenseur 4 0, 5⟩ : Sequence),
          ⟨["ferme", "ouvre"], etatAscenseur 0 1, 2⟩][i]? = some seq ∧
        ([(⟨["ferme", "bouge"], etatAscenseur 4 0, 5⟩ : Sequence),
          ⟨["ferme", "ouvre"], etatAscenseur 0 1, 2⟩].eraseIdx i).length + 1 =
          [(⟨["ferme", "bouge"], etatAscenseur 4 0, 5⟩ : Sequence),
            ⟨["ferme", "ouvre"], etatAscenseur 0 1, 2⟩].length) :=
  ⟨by decide, (open_collection_never_empty initAction (etatAscenseur 0 1) (etatAscenseur 4 1)
    Sequence.reset).1 2 _ (by decide)⟩

/-! ## The search on a goal that cannot be reached -/

theorem planIteration_porte_ouverte (seqResultat : Sequence) (s : List String) (c : Int) :
    planIteration initAction (etatAscenseur 0 2) seqResultat [⟨s, etatAscenseur 0 1, c⟩] =
      .inr [⟨s ++ ["ferme"], etatAscenseur 0 0, int32 (c + 1)⟩] := rfl

theorem planIteration_porte_fermee (seqResultat : Sequence) (s : List String) (c : Int) :
    planIteration initAction (etatAscenseur 0 2) seqResultat [⟨s, etatAscenseur 0 0, c⟩] =
      .inr [⟨s ++ ["ouvre"], etatAscenseur 0 1, int32 (c + 1)⟩] := rfl

theorem sequencesPossiblesAt_ascenseur (seqResultat : Sequence) (n : Nat) :
    ∀ (s : List String) (c : Int),
      (∃ s2 c2 d, (d = 0 ∨ d = 1) ∧
        sequencesPossiblesAt initAction (etatAscenseur 0 2) seqResultat n
          [⟨s, etatAscenseur 0 1, c⟩] = some [⟨s2, etatAscenseur 0 d, c2⟩]) ∧
      (∃ s2 c2 d, (d = 0 ∨ d = 1) ∧
        sequencesPossiblesAt initAction (etatAscenseur 0 2) seqResultat n
          [⟨s, etatAscenseur 0 0, c⟩] = some [⟨s2, etatAscenseur 0 d, c2⟩]) := by
  induction n with
  | zero =>
    intro s c
    exact ⟨⟨s, c, 1, Or.inr rfl, rfl⟩, ⟨s, c, 0, Or.inl rfl, rfl⟩⟩
  | succ n ih =>
    intro s c
    refine ⟨?_, ?_⟩
    · unfold sequencesPossiblesAt
      rw [planIteration_porte_ouverte]
      exact (ih _ _).2
    · unfold sequencesPossiblesAt
      rw [planIteration_porte_fermee]
      exact (ih _ _).1

theorem planLoop_ascenseur_outOfFuel (seqResultat : Sequence) (fuel : Nat) :
    ∀ (s : List String) (c : Int),
      planLoop initAction (etatAscenseur 0 2) seqResultat fuel [⟨s, etatAscenseur 0 1, c⟩] =
        .outOfFuel ∧
      planLoop initAction (etatAscenseur 0 2) seqResultat fuel [⟨s, etatAscenseur 0 0, c⟩] =
        .outOfFuel := by
  induction fuel with
  | zero =>
    intro s c
    exact ⟨rfl, rfl⟩
  | succ fuel ih =>
    intro s c
    refine ⟨?_, ?_⟩
    · rw [planLoop_succ, planIteration_porte_ouverte]
      exact (ih _ _).2
    · rw [planLoop_succ, planIteration_porte_fermee]
      exact (ih _ _).1

/-- C19: on the elevator registry, from floor 0 with open doors towards the goal floor 0
with the doors fact at 2, the open collection at the start of every iteration of the
search loop holds a node and no node equivalent to the goal; whatever the fuel, the loop
has not ended when the fuel runs out, so the call returns neither success nor failure. -/
theorem elevator_search_does_not_end (seqResultat : Sequence) :
    (∀ n, ∃ sp, sequencesPossiblesAt initAction (etatAscenseur 0 2) seqResultat n
        [⟨[], etatAscenseur 0 1, 0⟩] = some sp ∧ sp ≠ [] ∧
      ∀ node ∈ sp, operator_eq node.etaTmp (etatAscenseur 0 2) = false) ∧
    ∀ fuel, calculePlanPourAtteindreEtat initAction fuel (etatAscenseur 0 1) (etatAscenseur 0 2)
      seqResultat = .outOfFuel := by
  refine ⟨?_, ?_⟩
  · intro n
    obtain ⟨s2, c2, d, hd, h⟩ := (sequencesPossiblesAt_ascenseur seqResultat n [] 0).1
    refine ⟨_, h, by simp, ?_⟩
    intro node hnode
    simp only [List.mem_singleton] at hnode
    subst hnode
    rcases hd with rfl | rfl
    · show operator_eq (etatAscenseur 0 0) (etatAscenseur 0 2) = false
      decide
    · show operator_eq (etatAscenseur 0 1) (etatAscenseur 0 2) = false
      decide
  · intro fuel
    have hne : operator_eq (etatAscenseur 0 1) (etatAscenseur 0 2) = false := by decide
    unfold calculePlanPourAtteindreEtat
    rw [if_neg (by simp [hne])]
    exact (planLoop_ascenseur_outOfFuel seqResultat fuel [] 0).1

/-! ## The executor between actions -/

/-- C16: when an action is in progress and registered, one call of `Tick` is one
`action_tick` of that action on the current state: the pending sequence is left as it
was and the current action is cleared exactly when `action_tick` reports completion.
When no action is in progress and the front of the pending sequence is registered, one
call removes the front name only, keeps the other names in order, and is one
`action_tick` of the removed action. A throw of `action_tick` leaves `Tick`. -/
theorem Tick_dequeues_between_actions (actions : StdMap actionInterface) (x : Executor)
    (etatVoulu : Etat) :
    (x.actionEnCours ≠ "" → ∀ a, actions.find? x.actionEnCours = some a →
      (a.action_tick x.etatActuel etatVoulu = none → Tick actions x etatVoulu = .thrown) ∧
      ∀ fini etat, a.action_tick x.etatActuel etatVoulu = some (fini, etat) →
        Tick actions x etatVoulu = .returned (true,
          ⟨if fini then "" else x.actionEnCours, x.sequenceActions, etat⟩) ∧
        ((if fini then "" else x.actionEnCours) = "" ↔ fini = true)) ∧
    (x.actionEnCours = "" → ∀ front rest, x.sequenceActions = front :: rest →
      ∀ a, actions.find? front = some a →
      (a.action_tick x.etatActuel etatVoulu = none → Tick actions x etatVoulu = .thrown) ∧
      ∀ fini etat, a.action_tick x.etatActuel etatVoulu = some (fini, etat) →
        Tick actions x etatVoulu = .returned (true,
          ⟨if fini then "" else front, rest, etat⟩)) := by
  obtain ⟨enCours, pending, etatActuel⟩ := x
  refine ⟨?_, ?_⟩
  · intro hbusy a hf
    simp only at hbusy hf
    refine ⟨?_, ?_⟩
    · intro ht
      simp only at ht
      simp [Tick, hbusy, tickAction, hf, ht]
    · intro fini etat ht
      simp only at ht
      refine ⟨by simp [Tick, hbusy, tickAction, hf, ht], ?_⟩
      cases fini <;> simp [hbusy]
  · intro hidle front rest hseq a hf
    simp only at hidle hseq
    subst hidle hseq
    refine ⟨?_, ?_⟩
    · intro ht
      simp only at ht
      simp [Tick, tickAction, hf, ht]
    · intro fini etat ht
      simp only at ht
      simp [Tick, tickAction, hf, ht]

set_option maxRecDepth 100000 in
/-- Witness of C16 on the elevator registry: bouge in progress at floor 0 towards floor 4
with ouvre pending, and an idle executor with ferme, bouge pending. -/
theorem Tick_dequeues_between_actions_witness :
    Tick initAction ⟨"bouge", ["ouvre"], etatAscenseur 0 0⟩ (etatAscenseur 4 1) =
      .returned (true, ⟨"bouge", ["ouvre"], etatAscenseur 1 0⟩) ∧
    Tick initAction ⟨"", ["ferme", "bouge"], etatAscenseur 0 1⟩ (etatAscenseur 4 1) =
      .returned (true, ⟨"", ["bouge"], etatAscenseur 0 0⟩) :=
  ⟨(((Tick_dequeues_between_actions initAction ⟨"bouge", ["ouvre"], etatAscenseur 0 0⟩
      (etatAscenseur 4 1)).1 (by decide) actionBouge rfl).2 false (etatAscenseur 1 0) rfl).1,
    (((Tick_dequeues_between_actions initAction ⟨"", ["ferme", "bouge"], etatAscenseur 0 1⟩
      (etatAscenseur 4 1)).2 rfl "ferme" ["bouge"] rfl actionFermePorte rfl).2 true
      (etatAscenseur 0 0) rfl)⟩

/-! ## minimax -/

theorem insertIdx_eraseIdx_self (l : List Int) (i : Nat) (a : Int) (h : l[i]? = some a) :
    (l.eraseIdx i).insertIdx i a = l := by
  induction l generalizing i with
  | nil => simp at h
  | cons x rest ih =>
    cases i with
    | zero =>
      simp only [List.getElem?_cons_zero, Option.some.injEq] at h
      subst h
      simp
    | succ i =>
      simp only [List.getElem?_cons_succ] at h
      simp [ih i h]

theorem minimaxLoop_exit (env : MinimaxEnv)
    (rec : List Int → List Int → Int → Int → Outcome (Int × Int)) (player : Int)
    (firstIteration : Bool) (fuel i : Nat) (grid emptyCases : List Int)
    (best bestMoveOrdi : Int) (hi : emptyCases[i]? = none) :
    minimaxLoop env rec player firstIteration (fuel + 1) i grid emptyCases best bestMoveOrdi =
      .returned (best, bestMoveOrdi) := by
  rw [minimaxLoop]
  simp only [hi]

theorem minimaxLoop_step (env : MinimaxEnv)
    (rec : List Int → List Int → Int → Int → Outcome (Int × Int)) (player : Int)
    (firstIteration : Bool) (fuel i : Nat) (grid emptyCases : List Int)
    (best bestMoveOrdi indexMove resMinMax bestMoveOrdi1 : Int)
    (hi : emptyCases[i]? = some indexMove)
    (hvalid : 0 ≤ indexMove ∧ indexMove.toNat < grid.length)
    (hrec : rec (grid.set indexMove.toNat player) (emptyCases.eraseIdx i)
      (if player = env.COMPUTER then env.HUMAN else env.COMPUTER) bestMoveOrdi =
      .returned (resMinMax, bestMoveOrdi1)) :
    minimaxLoop env rec player firstIteration (fuel + 1) i grid emptyCases best bestMoveOrdi =
      minimaxLoop env rec player firstIteration fuel (i + 1)
        ((grid.set indexMove.toNat player).set indexMove.toNat env.EMPTY)
        ((emptyCases.eraseIdx i).insertIdx i indexMove)
        (if player = env.HUMAN ∧
            resMinMax < (if player = env.COMPUTER ∧ resMinMax > best then resMinMax else best)
          then resMinMax
          else (if player = env.COMPUTER ∧ resMinMax > best then resMinMax else best))
        (if player = env.COMPUTER ∧ resMinMax > best then
          (if firstIteration then indexMove else bestMoveOrdi1) else bestMoveOrdi1) := by
  rw [minimaxLoop]
  simp only [hi, hvalid, and_self, if_true, hrec]
  by_cases hc : player = env.COMPUTER ∧ resMinMax > best
  · simp only [hc, and_self, if_true]
  · simp only [hc, if_false]

theorem minimaxLoop_returned (env : MinimaxEnv)
    (rec : List Int → List Int → Int → Int → Outcome (Int × Int)) (player : Int)
    (firstIteration : Bool) (fuel i : Nat) (grid emptyCases : List Int)
    (best bestMoveOrdi : Int) (r : Int × Int)
    (h : minimaxLoop env rec player firstIteration (fuel + 1) i grid emptyCases best
      bestMoveOrdi = .returned r) :
    (emptyCases[i]? = none ∧ r = (best, bestMoveOrdi)) ∨
    ∃ indexMove resMinMax bestMoveOrdi1, emptyCases[i]? = some indexMove ∧
      (0 ≤ indexMove ∧ indexMove.toNat < grid.length) ∧
      rec (grid.set indexMove.toNat player) (emptyCases.eraseIdx i)
        (if player = env.COMPUTER then env.HUMAN else env.COMPUTER) bestMoveOrdi =
        .returned (resMinMax, bestMoveOrdi1) := by
  cases hi : emptyCases[i]? with
  | none =>
    rw [minimaxLoop_exit env rec player firstIteration fuel i grid emptyCases best bestMoveOrdi hi]
      at h
    simp only [Outcome.returned.injEq] at h
    exact Or.inl ⟨rfl, h.symm⟩
  | some indexMove =>
    right
    by_cases hvalid : 0 ≤ indexMove ∧ indexMove.toNat < grid.length
    · cases hrec : rec (grid.set indexMove.toNat player) (emptyCases.eraseIdx i)
          (if player = env.COMPUTER then env.HUMAN else env.COMPUTER) bestMoveOrdi with
      | returned a => exact ⟨indexMove, a.1, a.2, rfl, hvalid, hrec⟩
      | thrown =>
        rw [minimaxLoop] at h
        simp only [hi, hvalid, and_self, if_true, hrec] at h
        exact absurd h (by simp)
      | undefined =>
        rw [minimaxLoop] at h
        simp only [hi, hvalid, and_self, if_true, hrec] at h
        exact absurd h (by simp)
      | outOfFuel =>
        rw [minimaxLoop] at h
        simp only [hi, hvalid, and_self, if_true, hrec] at h
        exact absurd h (by simp)
    · rw [minimaxLoop] at h
      simp only [hi, hvalid, if_false] at h
      exact absurd h (by simp)

theorem minimaxLoop_keeps (env : MinimaxEnv)
    (rec : List Int → List Int → Int → Int → Outcome (Int × Int)) (player : Int)
    (hrec : ∀ g e p b r, rec g e p b = .returned r → r.2 = b) (fuel : Nat) :
    ∀ (i : Nat) (grid emptyCases : List Int) (best bestMoveOrdi : Int) (r : Int × Int),
      minimaxLoop env rec player false fuel i grid emptyCases best bestMoveOrdi = .returned r →
      r.2 = bestMoveOrdi := by
  induction fuel with
  | zero =>
    intro i grid emptyCases best bestMoveOrdi r h
    simp [minimaxLoop] at h
  | succ fuel ih =>
    intro i grid emptyCases best bestMoveOrdi r h
    rcases minimaxLoop_returned env rec player false fuel i grid emptyCases best bestMoveOrdi r h
      with ⟨_, hr⟩ | ⟨indexMove, res, b1, hi, hvalid, hr⟩
    · rw [hr]
    · have hb : b1 = bestMoveOrdi := hrec _ _ _ _ _ hr
      subst hb
      rw [minimaxLoop_step env rec player false fuel i grid emptyCases best b1 indexMove res b1
        hi hvalid hr] at h
      simp only [Bool.false_eq_true, if_false, ite_self] at h
      exact ih _ _ _ _ _ _ h

theorem minimax_keeps (env : MinimaxEnv) (fuel : Nat) :
    ∀ (grid emptyCases : List Int) (player bestMoveOrdi : Int) (r : Int × Int),
      minimax env fuel grid emptyCases player false bestMoveOrdi = .returned r →
      r.2 = bestMoveOrdi := by
  induction fuel with
  | zero =>
    intro grid emptyCases player bestMoveOrdi r h
    simp [minimax] at h
  | succ fuel ih =>
    intro grid emptyCases player bestMoveOrdi r h
    unfold minimax at h
    split at h
    · simp only [Outcome.returned.injEq] at h
      subst h; rfl
    · split at h
      · simp only [Outcome.returned.injEq] at h
        subst h; rfl
      · split at h
        · simp only [Outcome.returned.injEq] at h
          subst h; rfl
        · exact minimaxLoop_keeps env _ player (fun g e p b r hr => ih g e p b r hr) fuel _ _ _ _ _
            _ h

theorem minimaxLoop_returns (env : MinimaxEnv)
    (rec : List Int → List Int → Int → Int → Outcome (Int × Int)) (player : Int)
    (firstIteration : Bool) (N n : Nat)
    (hrec : ∀ g e b, g.length = N → e.length + 1 = n → (∀ idx ∈ e, 0 ≤ idx ∧ idx.toNat < N) →
      ∃ v b1, rec g e (if player = env.COMPUTER then env.HUMAN else env.COMPUTER) b =
        .returned (v, b1) ∧ (v = -1 ∨ v = 0 ∨ v = 1))
    (emptyCases : List Int) (hlen : emptyCases.length = n)
    (hvalid : ∀ idx ∈ emptyCases, 0 ≤ idx ∧ idx.toNat < N)
    (hp : player = env.COMPUTER ∨ player = env.HUMAN) (fuel : Nat) :
    ∀ (i : Nat) (grid : List Int) (best bestMoveOrdi : Int), grid.length = N → i ≤ n →
      n + 1 ≤ fuel + i →
      ((best = -1 ∨ best = 0 ∨ best = 1) ∨ (player = env.COMPUTER ∧ best < -1) ∨
        (player ≠ env.COMPUTER ∧ best > 1)) →
      ∃ v b1, minimaxLoop env rec player firstIteration fuel i grid emptyCases best
          bestMoveOrdi = .returned (v, b1) ∧
        ((v = -1 ∨ v = 0 ∨ v = 1) ∨ (v = best ∧ n ≤ i)) := by
  induction fuel with
  | zero =>
    intro i grid best bestMoveOrdi _ hi hfuel _
    omega
  | succ fuel ih =>
    intro i grid best bestMoveOrdi hgrid hi hfuel hbest
    cases hidx : emptyCases[i]? with
    | none =>
      rw [minimaxLoop_exit env rec player firstIteration fuel i grid emptyCases best bestMoveOrdi
        hidx]
      have : emptyCases.length ≤ i := List.getElem?_eq_none_iff.mp hidx
      exact ⟨best, bestMoveOrdi, rfl, Or.inr ⟨rfl, by omega⟩⟩
    | some indexMove =>
      have hlt : i < emptyCases.length := by
        by_contra hge
        rw [List.getElem?_eq_none (by omega)] at hidx
        exact absurd hidx (by simp)
      have hv := hvalid indexMove (List.getElem?_mem hidx)
      rw [← hgrid] at hv
      have herase : (emptyCases.eraseIdx i).length + 1 = n := by
        rw [List.length_eraseIdx, if_pos hlt]
        omega
      obtain ⟨res, b1, hr, hres⟩ := hrec (grid.set indexMove.toNat player)
        (emptyCases.eraseIdx i) bestMoveOrdi (by simp [hgrid]) herase
        (fun idx hm => hvalid idx (List.mem_of_mem_eraseIdx hm))
      rw [minimaxLoop_step env rec player firstIteration fuel i grid emptyCases best bestMoveOrdi
        indexMove res b1 hidx hv hr, insertIdx_eraseIdx_self emptyCases i indexMove hidx]
      have hbest2 : ∀ b2 : Int, b2 = (if player = env.HUMAN ∧
            res < (if player = env.COMPUTER ∧ res > best then res else best)
          then res else (if player = env.COMPUTER ∧ res > best then res else best)) →
          (b2 = -1 ∨ b2 = 0 ∨ b2 = 1) := by
        intro b2 hb2
        by_cases hc : player = env.COMPUTER
        · by_cases hh : player = env.HUMAN
          · simp only [hc, hh, true_and] at hb2 hbest
            split_ifs at hb2 <;> omega
          · simp only [hc, hh, true_and, false_and, if_false] at hb2 hbest
            split_ifs at hb2 <;> omega
        · have hh : player = env.HUMAN := hp.resolve_left hc
          simp only [hc, hh, true_and, false_and, if_false, not_false_eq_true,
            not_true_eq_false] at hb2 hbest
          split_ifs at hb2 <;> omega
      obtain ⟨v, b2, hloop, hv2⟩ := ih (i + 1)
        ((grid.set indexMove.toNat player).set indexMove.toNat env.EMPTY) _
        (if player = env.COMPUTER ∧ res > best then
          (if firstIteration then indexMove else b1) else b1)
        (by simp [hgrid]) (by omega) (by omega) (Or.inl (hbest2 _ rfl))
      refine ⟨v, b2, hloop, Or.inl ?_⟩
      rcases hv2 with hv2 | ⟨hv2, _⟩
      · exact hv2
      · rw [hv2]
        exact hbest2 _ rfl

theorem minimax_returns (env : MinimaxEnv) (fuel : Nat) :
    ∀ (grid emptyCases : List Int) (player : Int) (firstIteration : Bool) (bestMoveOrdi : Int),
      (∀ idx ∈ emptyCases, 0 ≤ idx ∧ idx.toNat < grid.length) →
      (player = env.COMPUTER ∨ player = env.HUMAN) →
      emptyCases.length + 2 ≤ fuel →
      ∃ v b1, minimax env fuel grid emptyCases player firstIteration bestMoveOrdi =
        .returned (v, b1) ∧ (v = -1 ∨ v = 0 ∨ v = 1) := by
  induction fuel with
  | zero =>
    intro grid emptyCases player firstIteration bestMoveOrdi _ _ hfuel
    omega
  | succ fuel ih =>
    intro grid emptyCases player firstIteration bestMoveOrdi hvalid hp hfuel
    unfold minimax
    split
    · exact ⟨1, bestMoveOrdi, rfl, by omega⟩
    · split
      · exact ⟨-1, bestMoveOrdi, rfl, by omega⟩
      · split
        · exact ⟨0, bestMoveOrdi, rfl, by omega⟩
        · rename_i hlen
          have hpos : 0 < emptyCases.length := by omega
          have hnext : (if player = env.COMPUTER then env.HUMAN else env.COMPUTER) =
              env.COMPUTER ∨
              (if player = env.COMPUTER then env.HUMAN else env.COMPUTER) = env.HUMAN := by
            split
            · exact Or.inr rfl
            · exact Or.inl rfl
          obtain ⟨v, b1, hloop, hv⟩ := minimaxLoop_returns env
            (fun g e p b => minimax env fuel g e p false b) player firstIteration grid.length
            emptyCases.length
            (fun g e b hg he hvalid2 => ih g e _ false b (by rw [hg]; exact hvalid2) hnext
              (by omega))
            emptyCases rfl hvalid hp fuel 0 grid (if player = env.COMPUTER then -10 else 10)
            bestMoveOrdi rfl (by omega) (by omega)
            (by
              by_cases hc : player = env.COMPUTER
              · simp [hc]
              · simp [hc])
          refine ⟨v, b1, hloop, ?_⟩
          rcases hv with hv | ⟨_, hn⟩
          · exact hv
          · omega

/-- C20: for a list `emptyCases` of indices inside the grid and a player that is COMPUTER
or HUMAN, `minimax` returns as soon as its fuel is the length of `emptyCases` plus 2 (a
recursive call receives a list one shorter and needs one unit less); the value returned
is -1, 0 or 1, so neither of the sentinels -10 and 10. -/
theorem minimax_terminates_with_outcome (env : MinimaxEnv) (fuel : Nat)
    (grid emptyCases : List Int) (player : Int) (firstIteration : Bool) (bestMoveOrdi : Int)
    (hvalid : ∀ idx ∈ emptyCases, 0 ≤ idx ∧ idx.toNat < grid.length)
    (hp : player = env.COMPUTER ∨ player = env.HUMAN)
    (hfuel : emptyCases.length + 2 ≤ fuel) :
    ∃ v b1, minimax env fuel grid emptyCases player firstIteration bestMoveOrdi =
        .returned (v, b1) ∧ (v = -1 ∨ v = 0 ∨ v = 1) ∧ v ≠ -10 ∧ v ≠ 10 := by
  obtain ⟨v, b1, h, hv⟩ := minimax_returns env fuel grid emptyCases player firstIteration
    bestMoveOrdi hvalid hp hfuel
  exact ⟨v, b1, h, hv, by omega, by omega⟩

set_option maxRecDepth 100000 in
/-- Witness of C20: a grid of Tic Tac Toe with three empty cases, COMPUTER to play. -/
theorem minimax_terminates_with_outcome_witness :
    ∃ v b1, minimax morpion 5 [1, 2, 1, 2, 2, 1, 0, 0, 0] [6, 7, 8] 1 true (-1) =
        .returned (v, b1) ∧ (v = -1 ∨ v = 0 ∨ v = 1) ∧ v ≠ -10 ∧ v ≠ 10 :=
  minimax_terminates_with_outcome morpion 5 [1, 2, 1, 2, 2, 1, 0, 0, 0] [6, 7, 8] 1 true (-1)
    (by decide) (Or.inl rfl) (by decide)

theorem minimaxLoop_mono (env : MinimaxEnv)
    (rec rec2 : List Int → List Int → Int → Int → Outcome (Int × Int)) (player : Int)
    (firstIteration : Bool)
    (hrec : ∀ g e p b r, rec g e p b = .returned r → rec2 g e p b = .returned r) (fuel : Nat) :
    ∀ (i : Nat) (grid emptyCases : List Int) (best bestMoveOrdi : Int) (r : Int × Int),
      minimaxLoop env rec player firstIteration fuel i grid emptyCases best bestMoveOrdi =
        .returned r →
      minimaxLoop env rec2 player firstIteration (fuel + 1) i grid emptyCases best bestMoveOrdi =
        .returned r := by
  induction fuel with
  | zero =>
    intro i grid emptyCases best bestMoveOrdi r h
    simp [minimaxLoop] at h
  | succ fuel ih =>
    intro i grid emptyCases best bestMoveOrdi r h
    rcases minimaxLoop_returned env rec player firstIteration fuel i grid emptyCases best
      bestMoveOrdi r h with ⟨hi, hr⟩ | ⟨indexMove, res, b1, hi, hvalid, hr⟩
    · rw [minimaxLoop_exit env rec2 player firstIteration (fuel + 1) i grid emptyCases best
        bestMoveOrdi hi, hr]
    · rw [minimaxLoop_step env rec player firstIteration fuel i grid emptyCases best bestMoveOrdi
        indexMove res b1 hi hvalid hr] at h
      rw [minimaxLoop_step env rec2 player firstIteration (fuel + 1) i grid emptyCases best
        bestMoveOrdi indexMove res b1 hi hvalid (hrec _ _ _ _ _ hr)]
      exact ih _ _ _ _ _ _ h

theorem minimax_mono (env : MinimaxEnv) (fuel : Nat) :
    ∀ (grid emptyCases : List Int) (player : Int) (firstIteration : Bool) (bestMoveOrdi : Int)
      (r : Int × Int),
      minimax env fuel grid emptyCases player firstIteration bestMoveOrdi = .returned r →
      minimax env (fuel + 1) grid emptyCases player firstIteration bestMoveOrdi = .returned r := by
  induction fuel with
  | zero =>
    intro grid emptyCases player firstIteration bestMoveOrdi r h
    simp [minimax] at h
  | succ fuel ih =>
    intro grid emptyCases player firstIteration bestMoveOrdi r h
    rw [minimax] at h ⊢
    split
    · rename_i hw
      rw [if_pos hw] at h
      exact h
    · rename_i hw
      rw [if_neg hw] at h
      split
      · rename_i hw2
        rw [if_pos hw2] at h
        exact h
      · rename_i hw2
        rw [if_neg hw2] at h
        split
        · rename_i hl
          rw [if_pos hl] at h
          exact h
        · rename_i hl
          rw [if_neg hl] at h
          exact minimaxLoop_mono env _ _ player firstIteration
            (fun g e p b r hr => ih g e p false b r hr) fuel _ _ _ _ _ _ h

theorem minimax_mono_le (env : MinimaxEnv) (fuel fuel2 : Nat) (hle : fuel ≤ fuel2)
    (grid emptyCases : List Int) (player : Int) (firstIteration : Bool) (bestMoveOrdi : Int)
    (r : Int × Int)
    (h : minimax env fuel grid emptyCases player firstIteration bestMoveOrdi = .returned r) :
    minimax env fuel2 grid emptyCases player firstIteration bestMoveOrdi = .returned r := by
  induction fuel2 with
  | zero =>
    have : fuel = 0 := by omega
    subst this
    exact h
  | succ fuel2 ih =>
    by_cases heq : fuel = fuel2 + 1
    · subst heq
      exact h
    · exact minimax_mono env fuel2 _ _ _ _ _ _ (ih (by omega))

theorem minimaxLoop_indep (env : MinimaxEnv)
    (rec : List Int → List Int → Int → Int → Outcome (Int × Int)) (player : Int)
    (hrec : ∀ g e p b b2 r, rec g e p b = .returned r → rec g e p b2 = .returned (r.1, b2))
    (fuel : Nat) :
    ∀ (i : Nat) (grid emptyCases : List Int) (best b b2 : Int) (r : Int × Int),
      minimaxLoop env rec player false fuel i grid emptyCases best b = .returned r →
      minimaxLoop env rec player false fuel i grid emptyCases best b2 = .returned (r.1, b2) := by
  induction fuel with
  | zero =>
    intro i grid emptyCases best b b2 r h
    simp [minimaxLoop] at h
  | succ fuel ih =>
    intro i grid emptyCases best b b2 r h
    rcases minimaxLoop_returned env rec player false fuel i grid emptyCases best b r h
      with ⟨hi, hr⟩ | ⟨indexMove, res, b1, hi, hvalid, hr⟩
    · rw [minimaxLoop_exit env rec player false fuel i grid emptyCases best b2 hi, hr]
    · rw [minimaxLoop_step env rec player false fuel i grid emptyCases best b indexMove res b1
        hi hvalid hr] at h
      rw [minimaxLoop_step env rec player false fuel i grid emptyCases best b2 indexMove res b2
        hi hvalid (hrec _ _ _ _ b2 _ hr)]
      simp only [Bool.false_eq_true, if_false, ite_self] at h ⊢
      exact ih _ _ _ _ _ _ _ h

theorem minimax_indep (env : MinimaxEnv) (fuel : Nat) :
    ∀ (grid emptyCases : List Int) (player b b2 : Int) (r : Int × Int),
      minimax env fuel grid emptyCases player false b = .returned r →
      minimax env fuel grid emptyCases player false b2 = .returned (r.1, b2) := by
  induction fuel with
  | zero =>
    intro grid emptyCases player b b2 r h
    simp [minimax] at h
  | succ fuel ih =>
    intro grid emptyCases player b b2 r h
    rw [minimax] at h ⊢
    split
    · rename_i hw
      rw [if_pos hw] at h
      simp only [Outcome.returned.injEq] at h
      rw [← h]
    · rename_i hw
      rw [if_neg hw] at h
      split
      · rename_i hw2
        rw [if_pos hw2] at h
        simp only [Outcome.returned.injEq] at h
        rw [← h]
      · rename_i hw2
        rw [if_neg hw2] at h
        split
        · rename_i hl
          rw [if_pos hl] at h
          simp only [Outcome.returned.injEq] at h
          rw [← h]
        · rename_i hl
          rw [if_neg hl] at h
          exact minimaxLoop_indep env _ player (fun g e p c c2 r hr => ih g e p c c2 r hr) fuel
            _ _ _ _ _ _ _ h

theorem set_set_restore (grid : List Int) (k : Nat) (a b : Int) (h : grid[k]? = some b) :
    (grid.set k a).set k b = grid := by
  rw [List.set_set]
  induction grid generalizing k with
  | nil => rfl
  | cons x rest ih =>
    cases k with
    | zero =>
      simp only [List.getElem?_cons_zero, Option.some.injEq] at h
      subst h
      rfl
    | succ k =>
      simp only [List.getElem?_cons_succ] at h
      simp [ih k h]

theorem minimaxLoop_argmax (env : MinimaxEnv)
    (rec : List Int → List Int → Int → Int → Outcome (Int × Int))
    (hCH : env.COMPUTER ≠ env.HUMAN) (grid emptyCases : List Int) (val : Nat → Int)
    (hcells : ∀ idx ∈ emptyCases,
      0 ≤ idx ∧ idx.toNat < grid.length ∧ grid[idx.toNat]? = some env.EMPTY)
    (hrec : ∀ j idx, emptyCases[j]? = some idx → ∀ b,
      rec (grid.set idx.toNat env.COMPUTER) (emptyCases.eraseIdx j) env.HUMAN b =
        .returned (val j, b))
    (fuel : Nat) :
    ∀ (i : Nat) (best bestMoveOrdi : Int), i ≤ emptyCases.length →
      emptyCases.length + 1 ≤ fuel + i →
      ∃ v m, minimaxLoop env rec env.COMPUTER true fuel i grid emptyCases best bestMoveOrdi =
          .returned (v, m) ∧
        best ≤ v ∧ (∀ j, i ≤ j → j < emptyCases.length → val j ≤ v) ∧
        ((v = best ∧ m = bestMoveOrdi) ∨
          ∃ k, i ≤ k ∧ emptyCases[k]? = some m ∧ val k = v ∧ best < v ∧
            ∀ j, i ≤ j → j < k → val j < v) := by
  induction fuel with
  | zero =>
    intro i best bestMoveOrdi hi hfuel
    omega
  | succ fuel ih =>
    intro i best bestMoveOrdi hi hfuel
    cases hidx : emptyCases[i]? with
    | none =>
      rw [minimaxLoop_exit env rec env.COMPUTER true fuel i grid emptyCases best bestMoveOrdi hidx]
      have hlen : emptyCases.length ≤ i := List.getElem?_eq_none_iff.mp hidx
      exact ⟨best, bestMoveOrdi, rfl, le_refl _, fun j h1 h2 => by omega, Or.inl ⟨rfl, rfl⟩⟩
    | some indexMove =>
      have hlt : i < emptyCases.length := by
        by_contra hge
        rw [List.getElem?_eq_none (by omega)] at hidx
        exact absurd hidx (by simp)
      obtain ⟨h0, hin, hempty⟩ := hcells indexMove (List.getElem?_mem hidx)
      have hr := hrec i indexMove hidx bestMoveOrdi
      have hnext : (if env.COMPUTER = env.COMPUTER then env.HUMAN else env.COMPUTER) =
          env.HUMAN := by simp
      rw [minimaxLoop_step env rec env.COMPUTER true fuel i grid emptyCases best bestMoveOrdi
        indexMove (val i) bestMoveOrdi hidx ⟨h0, hin⟩ (by rw [hnext]; exact hr),
        insertIdx_eraseIdx_self emptyCases i indexMove hidx,
        set_set_restore grid indexMove.toNat env.COMPUTER env.EMPTY hempty]
      simp only [hCH, false_and, if_false, true_and, if_true]
      obtain ⟨v, m, hloop, hle, hall, hcase⟩ := ih (i + 1)
        (if val i > best then val i else best)
        (if val i > best then indexMove else bestMoveOrdi) (by omega) (by omega)
      refine ⟨v, m, hloop, ?_, ?_, ?_⟩
      · split_ifs at hle <;> omega
      · intro j hj1 hj2
        by_cases hji : j = i
        · subst hji
          split_ifs at hle <;> omega
        · exact hall j (by omega) hj2
      · rcases hcase with ⟨hv, hm⟩ | ⟨k, hk, hkm, hkv, hlt2, hbefore⟩
        · by_cases hgt : val i > best
          · simp only [hgt, if_true] at hv hm
            right
            exact ⟨i, le_refl _, by rw [hm]; exact hidx, hv.symm, by omega,
              fun j h1 h2 => by omega⟩
          · simp only [hgt, if_false] at hv hm
            exact Or.inl ⟨hv, hm⟩
        · right
          refine ⟨k, by omega, hkm, hkv, ?_, ?_⟩
          · split_ifs at hlt2 <;> omega
          · intro j hj1 hj2
            by_cases hji : j = i
            · subst hji
              split_ifs at hlt2 <;> omega
            · exact hbefore j (by omega) hj2

/-- C15: on a grid that neither player has won, with a non-empty list `emptyCases` of
indices of empty cases, COMPUTER and HUMAN distinct and fuel at least the length of
`emptyCases` plus 2, the call with player COMPUTER and `firstIteration` true returns the
greatest of the values `val j` of the positions reached by playing `emptyCases[j]` (that
case set to COMPUTER, the index removed, HUMAN to play) and leaves in `bestMoveOrdi` the
first element of `emptyCases`, in list order, whose position has that value. The value
of a position does not depend on the fuel, once enough, nor on `bestMoveOrdi`, and no
call with `firstIteration` false changes `bestMoveOrdi`. -/
theorem minimax_chooses_first_best_move (env : MinimaxEnv) (hCH : env.COMPUTER ≠ env.HUMAN)
    (fuel : Nat) (grid emptyCases : List Int) (bestMoveOrdi : Int)
    (hnoC : env.winningGrid grid env.COMPUTER = false)
    (hnoH : env.winningGrid grid env.HUMAN = false)
    (hne : emptyCases ≠ [])
    (hcells : ∀ idx ∈ emptyCases,
      0 ≤ idx ∧ idx.toNat < grid.length ∧ grid[idx.toNat]? = some env.EMPTY)
    (hfuel : emptyCases.length + 2 ≤ fuel) :
    (∃ (val : Nat → Int) (v m : Int) (k : Nat),
      minimax env fuel grid emptyCases env.COMPUTER true bestMoveOrdi = .returned (v, m) ∧
      (∀ j idx, emptyCases[j]? = some idx → ∀ fuel2, emptyCases.length + 1 ≤ fuel2 → ∀ b,
        minimax env fuel2 (grid.set idx.toNat env.COMPUTER) (emptyCases.eraseIdx j) env.HUMAN
          false b = .returned (val j, b)) ∧
      emptyCases[k]? = some m ∧ val k = v ∧ (∀ j, j < k → val j < v) ∧
      ∀ j, j < emptyCases.length → val j ≤ v) ∧
    ∀ fuel2 g e p b r, minimax env fuel2 g e p false b = .returned r → r.2 = b := by
  refine ⟨?_, fun fuel2 g e p b r h => minimax_keeps env fuel2 g e p b r h⟩
  have hpos : 0 < emptyCases.length := List.length_pos.mpr hne
  -- the value of the position reached by the move number j
  have hvalue : ∀ j idx, emptyCases[j]? = some idx → ∃ vj, (vj = -1 ∨ vj = 0 ∨ vj = 1) ∧
      ∀ fuel2, emptyCases.length + 1 ≤ fuel2 → ∀ b,
        minimax env fuel2 (grid.set idx.toNat env.COMPUTER) (emptyCases.eraseIdx j) env.HUMAN
          false b = .returned (vj, b) := by
    intro j idx hj
    have hlt : j < emptyCases.length := by
      by_contra hge
      rw [List.getElem?_eq_none (by omega)] at hj
      exact absurd hj (by simp)
    have hlen : (emptyCases.eraseIdx j).length + 2 ≤ emptyCases.length + 1 := by
      rw [List.length_eraseIdx, if_pos hlt]
      omega
    obtain ⟨vj, b1, hret, hvj⟩ := minimax_returns env (emptyCases.length + 1)
      (grid.set idx.toNat env.COMPUTER) (emptyCases.eraseIdx j) env.HUMAN false 0
      (fun i hi => by
        have := hcells i (List.mem_of_mem_eraseIdx hi)
        simpa using ⟨this.1, this.2.1⟩)
      (Or.inr rfl) hlen
    refine ⟨vj, hvj, ?_⟩
    intro fuel2 hf b
    have := minimax_indep env _ _ _ _ 0 b _ hret
    exact minimax_mono_le env _ fuel2 hf _ _ _ _ _ _ this
  let val : Nat → Int := fun j =>
    match emptyCases[j]? with
    | some idx =>
      match minimax env (emptyCases.length + 1) (grid.set idx.toNat env.COMPUTER)
          (emptyCases.eraseIdx j) env.HUMAN false 0 with
      | .returned r => r.1
      | _ => 0
    | none => 0
  have hval : ∀ j idx, emptyCases[j]? = some idx → (val j = -1 ∨ val j = 0 ∨ val j = 1) ∧
      ∀ fuel2, emptyCases.length + 1 ≤ fuel2 → ∀ b,
        minimax env fuel2 (grid.set idx.toNat env.COMPUTER) (emptyCases.eraseIdx j) env.HUMAN
          false b = .returned (val j, b) := by
    intro j idx hj
    obtain ⟨vj, hvj, hall⟩ := hvalue j idx hj
    have hv : val j = vj := by
      simp only [val, hj, hall (emptyCases.length + 1) (le_refl _) 0]
    rw [hv]
    exact ⟨hvj, hall⟩
  obtain ⟨f, rfl⟩ : ∃ f, fuel = f + 1 := ⟨fuel - 1, by omega⟩
  obtain ⟨v, m, hloop, _, hall, hcase⟩ := minimaxLoop_argmax env
    (fun g e p b => minimax env f g e p false b) hCH grid emptyCases val hcells
    (fun j idx hj b => (hval j idx hj).2 f (by omega) b) f 0 (-10) bestMoveOrdi (by omega)
    (by omega)
  have hmini : minimax env (f + 1) grid emptyCases env.COMPUTER true bestMoveOrdi =
      .returned (v, m) := by
    rw [minimax]
    simp only [hnoC, hnoH, Bool.false_eq_true, if_false, if_true]
    rw [if_neg (by omega)]
    exact hloop
  obtain ⟨idx0, hidx0⟩ : ∃ idx0, emptyCases[0]? = some idx0 :=
    ⟨emptyCases[0], List.getElem?_eq_getElem hpos⟩
  have hv0 := (hval 0 idx0 hidx0).1
  have hle0 := hall 0 (le_refl _) hpos
  rcases hcase with ⟨hv, _⟩ | ⟨k, _, hkm, hkv, _, hbefore⟩
  · omega
  · exact ⟨val, v, m, k, hmini, fun j idx hj => (hval j idx hj).2, hkm, hkv,
      fun j hj => hbefore j (Nat.zero_le _) hj, fun j hj => hall j (Nat.zero_le _) hj⟩

set_option maxRecDepth 100000 in
/-- Witness of C15: Tic Tac Toe, COMPUTER to play on a grid with the cases 6, 7 and 8
empty; the call returns 1 and leaves 8 in `bestMoveOrdi`. -/
theorem minimax_chooses_first_best_move_witness :
    minimax morpion 5 [1, 2, 1, 2, 2, 1, 0, 0, 0] [6, 7, 8] morpion.COMPUTER true (-1) =
      .returned (1, 8) ∧
    ((∃ (val : Nat → Int) (v m : Int) (k : Nat),
      minimax morpion 5 [1, 2, 1, 2, 2, 1, 0, 0, 0] [6, 7, 8] morpion.COMPUTER true (-1) =
        .returned (v, m) ∧
      (∀ j idx, ([6, 7, 8] : List Int)[j]? = some idx →
        ∀ fuel2, ([6, 7, 8] : List Int).length + 1 ≤ fuel2 → ∀ b,
        minimax morpion fuel2
          (([1, 2, 1, 2, 2, 1, 0, 0, 0] : List Int).set idx.toNat morpion.COMPUTER)
          (([6, 7, 8] : List Int).eraseIdx j) morpion.HUMAN false b = .returned (val j, b)) ∧
      ([6, 7, 8] : List Int)[k]? = some m ∧ val k = v ∧ (∀ j, j < k → val j < v) ∧
      ∀ j, j < ([6, 7, 8] : List Int).length → val j ≤ v) ∧
    ∀ fuel2 g e p b r, minimax morpion fuel2 g e p false b = .returned r → r.2 = b) :=
  ⟨by decide, minimax_chooses_first_best_move morpion (by decide) 5 [1, 2, 1, 2, 2, 1, 0, 0, 0]
    [6, 7, 8] (-1) (by decide) (by decide) (by decide) (by decide) (by decide)⟩

end GOAP
